import Mathlib

/-!
Verification development for the stathq stat value ingestion and aggregation
engine (Go sources `main.go`, `db.go`).

Modelling conventions, applied throughout:

* Machine integers (`int`, `int64`) are modelled as `Int`.  Go's integer
  division truncates toward zero, so it is rendered as `Int.tdiv`.
* Calendar dates are modelled as whole days since the Unix epoch
  (1970-01-01, which fell on a Thursday).  The external `time` package's
  `Parse`/`Format`/`AddDate(0,0,n)` round-trip a `YYYY-MM-DD` string through
  such a day number injectively, so rows keyed by a formatted date string are
  keyed by the day number, and `t.Weekday() == Thursday` is `day % 7 == 0`.
* The SQLite store is modelled as in-memory lists of the row shapes the
  handlers actually read and write: `weekly_stats (name, week_ending, value,
  user_id, division_id)` and `daily_stats (name, date, value, user_id)`.
  `INSERT` appends, `DELETE ... WHERE p` filters out the rows matching `p`,
  `SELECT ... LIMIT 1` takes the first match, and a transaction either
  commits the accumulated new state or rolls back to the original one
  (`Except.error` carries no state: an error leaves the store unchanged).
* Go's `strconv.ParseFloat` followed by `fmt.Sprintf("%.2f", ·)` (inside
  `StringToMoney`) and the expressions `f*100 + 0.5`, `float64(m)/f + 0.5`,
  `float64(m)*f + 0.5` (percentage encoding, `USD.Divide`, `USD.Multiply`,
  `ToUSD`) are modelled over the plain-decimal strings with at most two
  fractional digits, on which the double-precision computation is exact
  (the true value scaled by 100 is an integer, and the accumulated relative
  error is far below the half-cent threshold for all magnitudes the
  application handles); `int64(x)` truncates toward zero.  Decimal strings
  with three or more fractional digits, exponent forms, `Inf`/`NaN` and
  hexadecimal floats are outside the modelled domain (`parseDec2` rejects
  them), and no theorem below quantifies over them.
* Go's `strings.ToLower` (and SQLite's `LOWER`) on the ASCII short codes the
  application uses is character-wise lowercasing, `strLower`.
-/

/-! ## Decimal and integer codecs (ValueCodec) -/

deriving instance DecidableEq for Except

/-- Whitespace for Go `strings.TrimSpace` (the ASCII space characters; the
application's values never contain the exotic unicode spaces). -/
def isSpaceChar (c : Char) : Bool :=
  c == ' ' || c == '\t' || c == '\n' || c == '\x0b' || c == '\x0c' || c == '\r'

/-- Go `strings.TrimSpace`: drop whitespace from both ends. -/
def strTrim (s : String) : String :=
  ⟨((s.data.dropWhile isSpaceChar).reverse.dropWhile isSpaceChar).reverse⟩

/-- Numeric value of a list of decimal digit characters, most significant
first (the usual base-10 accumulation). -/
def digitsVal (cs : List Char) : Nat :=
  cs.foldl (fun a c => a * 10 + (c.toNat - 48)) 0

/-- True when the list is nonempty and all characters are decimal digits. -/
def isDigits (cs : List Char) : Bool :=
  !cs.isEmpty && cs.all Char.isDigit

/-- Strip one leading sign character, reporting whether it was a minus. -/
def stripSign : List Char → Bool × List Char
  | [] => (false, [])
  | c :: rest =>
    if c = '-' then (true, rest)
    else if c = '+' then (false, rest)
    else (false, c :: rest)

/-- Go `strconv.Atoi`: an optional single sign followed by one or more
decimal digits; anything else is an error (`none`). -/
def atoi (s : String) : Option Int :=
  match stripSign s.toList with
  | (neg, body) =>
    if isDigits body then some ((if neg then -1 else 1) * (digitsVal body : Int)) else none

/-- Split a character list at the first `'.'`, if any. -/
def splitDot : List Char → List Char × Option (List Char)
  | [] => ([], none)
  | c :: rest =>
    if c = '.' then ([], some rest)
    else
      let (a, b) := splitDot rest
      (c :: a, b)

/-- A plain decimal numeral with at most two fractional digits, after the
normalisation Go's `fmt.Sprintf("%.2f", strconv.ParseFloat(s))` performs on
it: a sign, an integer part, and a hundredths part below 100. -/
structure Dec2 where
  neg : Bool
  units : Nat
  cents : Nat
  deriving DecidableEq, Repr

/-- Parse a plain decimal string `[+-]digits[.d | .dd]`.  On this domain
`strconv.ParseFloat` is exact and `Sprintf("%.2f", ·)` renders the same
number back with exactly two fractional digits, so the parse captures the
`ParseFloat`/`%.2f` pipeline; strings outside the domain are not modelled
(see the file header). -/
def parseDec2 (s : String) : Option Dec2 :=
  let (sign, body) := stripSign s.toList
  match splitDot body with
  | (ip, none) => if isDigits ip then some ⟨sign, digitsVal ip, 0⟩ else none
  | (ip, some fp) =>
    if isDigits ip && isDigits fp && fp.length ≤ 2 then
      some ⟨sign, digitsVal ip, if fp.length = 1 then digitsVal fp * 10 else digitsVal fp⟩
    else none

/-- Value of a parsed decimal in hundredths (exact). -/
def dec2Scaled (d : Dec2) : Int :=
  (if d.neg then -1 else 1) * ((d.units : Int) * 100 + (d.cents : Int))

/-- Go `Money` struct: dollars, cents, and the (never consulted) negative
flag. -/
structure Money where
  dollars : Int
  cents : Nat
  negative : Bool
  deriving DecidableEq, Repr

/-- Go `StringToMoney`: an empty string becomes `"0.00"`; the string is
parsed with `ParseFloat`, re-rendered with `%.2f`, split on the dot, and both
parts go through `Atoi`.  The dollars part keeps the sign (`Atoi "-0" = 0`),
the cents part is always the nonnegative two-digit part, and `negative`
records `fl < 0`. -/
def StringToMoney (s : String) : Option Money :=
  let s := if s = "" then "0.00" else s
  (parseDec2 s).map (fun d =>
    { dollars := if d.neg then -(d.units : Int) else (d.units : Int)
      cents := d.cents
      negative := d.neg && (d.units != 0 || d.cents != 0) })

/-- Go `Money.MoneyToUSD`: `dollars * 100 + cents`.  The `Negative` flag is
not consulted, exactly as in the source. -/
def MoneyToUSD (m : Money) : Int :=
  m.dollars * 100 + (m.cents : Int)

/-- Decimal digit character for `k < 10`. -/
def digitChar10 (k : Nat) : Char :=
  Char.ofNat (48 + k)

/-- Decimal digits of `n`, most significant first, by fuel-bounded division
(the rendering of `fmt`'s `%d` on a nonnegative number). -/
def natDigitsCore : Nat → Nat → List Char → List Char
  | 0, _, acc => acc
  | fuel + 1, n, acc =>
    if n < 10 then digitChar10 n :: acc
    else natDigitsCore fuel (n / 10) (digitChar10 (n % 10) :: acc)

/-- Base-10 rendering of a natural number. -/
def natRepr (n : Nat) : String :=
  ⟨natDigitsCore (n + 1) n []⟩

/-- Go `fmt.Sprintf("%d", v)` on an `int64`: optional sign, then digits. -/
def intRepr (v : Int) : String :=
  (if v < 0 then "-" else "") ++ natRepr v.natAbs

/-- Two-digit zero-padded rendering of a number below 100 (the fractional
part `%.2f` emits). -/
def pad2 (n : Nat) : String :=
  ⟨[digitChar10 (n / 10 % 10), digitChar10 (n % 10)]⟩

/-- Go `USD.String`: `fmt.Sprintf("%.2f", float64(cents)/100)` — the sign,
the whole dollars, a dot, and the two-digit cents remainder. -/
def usdString (m : Int) : String :=
  (if m < 0 then "-" else "") ++ natRepr (m.natAbs / 100) ++ "." ++ pad2 (m.natAbs % 100)

/-- Go `int64(x + 0.5)` for `x` an exact integer-valued float `v2`:
truncation toward zero of `v2 + 1/2`. -/
def halfUpTrunc (v2 : Int) : Int :=
  if 0 ≤ v2 then v2 else v2 + 1

/-- Go `ToUSD` applied to an exactly-parsed decimal of `v2` hundredths:
`USD((f * 100) + 0.5)` where `f*100` computes to exactly `v2`. -/
def ToUSD (v2 : Int) : Int := halfUpTrunc v2

/-- Go `USD.Divide` by a positive integer-valued float `k`:
`USD(float64(m)/k + 0.5)`, i.e. truncation toward zero of `m/k + 1/2 =
(2m+k)/(2k)`. -/
def usdDivide (m k : Int) : Int :=
  Int.tdiv (2 * m + k) (2 * k)

/-- Go `USD.Multiply` by an integer-valued float `i`:
`USD(float64(m)*i + 0.5)`; the product is an exact integer. -/
def usdMultiply (m i : Int) : Int := halfUpTrunc (m * i)

/-- Go `GetQuotaInt(i, q)`: `Atoi` the quota (empty means `"0"`), then
`(n / 5) * i` in truncating integer division. -/
def GetQuotaInt (i : Int) (q : String) : Option Int :=
  let q := if q = "" then "0" else q
  (atoi q).map (fun n => (Int.tdiv n 5) * i)

/-- Go `GetQuotaFloat(i, q)` viewed in cent space: parse the quota (empty
means `"0.00"`), convert to cents with `ToUSD`, `Divide` by 5, `Multiply` by
`i`.  The Go function finally returns `pennies.Float64()`, i.e. this cent
value divided by 100; we return the cents. -/
def GetQuotaFloat (i : Int) (q : String) : Option Int :=
  let q := if q = "" then "0.00" else q
  (parseDec2 q).map (fun d => usdMultiply (usdDivide (ToUSD (dec2Scaled d)) 5) i)

/-! ## Stat registry -/

/-- Go `strings.ToLower` / SQLite `LOWER` on the ASCII identifiers the
application uses: character-wise lowercasing. -/
def strLower (s : String) : String :=
  ⟨s.data.map Char.toLower⟩

/-- Scope type of a stat (`stats.type`, constrained by the schema to these
three values). -/
inductive StatType where
  | personal
  | divisional
  | main
  deriving DecidableEq, Repr

/-- Value type of a stat (`stats.value_type`, constrained by the schema). -/
inductive ValueType where
  | currency
  | number
  | percentage
  deriving DecidableEq, Repr

/-- Stat metadata consulted by the handlers (`stats` columns `short_id`,
`type`, `value_type`, `assigned_user_id`). -/
structure StatMeta where
  shortId : String
  stype : StatType
  vtype : ValueType
  assignedUserId : Option Nat
  deriving DecidableEq, Repr

/-- A row of the `stats` table: numeric primary key plus metadata. -/
structure StatRow where
  id : Nat
  meta : StatMeta
  deriving DecidableEq, Repr

/-- The `stats` table. -/
abbrev Registry := List StatRow

/-- `SELECT ... FROM stats WHERE id = ? LIMIT 1`. -/
def lookupStat (reg : Registry) (statId : Nat) : Option StatMeta :=
  (reg.find? (fun r => r.id == statId)).map (·.meta)

/-- `SELECT ... FROM stats WHERE LOWER(short_id) = ? LIMIT 1`, the argument
already lowercased by the caller. -/
def lookupStatByShort (reg : Registry) (statShort : String) : Option StatMeta :=
  (reg.find? (fun r => strLower r.meta.shortId == strLower statShort)).map (·.meta)

/-! ## Canonical series store -/

/-- A `weekly_stats` row as the handlers write it: lowercased stat short
name, week-ending day, stored integer value, writing user id; `division_id`
is never set by these paths (`none` = SQL NULL). -/
structure WeeklyRow where
  name : String
  weekEnding : Int
  value : Int
  userId : Nat
  divisionId : Option Nat
  deriving DecidableEq, Repr

/-- A `daily_stats` row as `handleSave7R` writes it: lowercased stat short
name, calendar day, stored integer value, writing user id. -/
structure DailyRow where
  name : String
  date : Int
  value : Int
  userId : Nat
  deriving DecidableEq, Repr

/-- The persistent store: the two period-value tables. -/
structure Store where
  weekly : List WeeklyRow
  daily : List DailyRow
  deriving DecidableEq, Repr

/-- Go `checkIfValidWE`: the date must parse and fall on a Thursday.  On day
numbers (1970-01-01 was a Thursday) that is divisibility of the residue. -/
def checkIfValidWE (d : Int) : Bool :=
  d % 7 == 0

/-- The five business days `handleSave7R`/`handleGetDailyStats` derive from a
week-ending Thursday: `we`, `we+1` (Friday), `we+4` (Monday), `we+5`
(Tuesday), `we+6` (Wednesday). -/
def week7Dates (we : Int) : List Int :=
  [we, we + 1, we + 4, we + 5, we + 6]

/-! ## Error taxonomy

The handlers report failures through `webFail` with distinct messages; the
model keeps the kind of each failure branch. -/

/-- Error kinds of the write/read paths. -/
inductive WErr where
  | validation
  | notFound
  | scope
  | badDate
  | badRequest
  deriving DecidableEq, Repr

/-! ## Validators -/

/-- Go `validateWeeklyValueByType`: trim; empty is allowed; otherwise
currency must pass `StringToMoney`, number must pass `Atoi`, percentage must
pass `ParseFloat` — with no range check on percentages. -/
def validateWeeklyValueByType (valueStr : String) (vt : ValueType) : Bool :=
  let v := strTrim valueStr
  if v = "" then true
  else
    match vt with
    | .currency => (StringToMoney v).isSome
    | .number => (atoi v).isSome
    | .percentage => (parseDec2 v).isSome

/-- One cell of `validateDailyStatByType`: empty is allowed; currency via
`StringToMoney`, number via `Atoi`, percentage via `ParseFloat` plus the
range check `0 ≤ f ≤ 100` (in hundredths, `0 ≤ v2 ≤ 10000`). -/
def validCell (vt : ValueType) (val : String) : Bool :=
  if val = "" then true
  else
    match vt with
    | .currency => (StringToMoney val).isSome
    | .number => (atoi val).isSome
    | .percentage =>
      match parseDec2 val with
      | none => false
      | some d => decide (0 ≤ dec2Scaled d ∧ dec2Scaled d ≤ 10000)

/-- One row of the 7R grid payload (`handleSave7R`'s decoded `Row`): the
required stat id plus the five day cells and the quota cell. -/
structure Save7RRow where
  statId : Nat
  thursday : String
  friday : String
  monday : String
  tuesday : String
  wednesday : String
  quota : String
  deriving DecidableEq, Repr

/-- The six validated fields of a daily row, in the order they carry
offsets. -/
def dailyFields (r : Save7RRow) : List String :=
  [r.thursday, r.friday, r.monday, r.tuesday, r.wednesday, r.quota]

/-- Go `validateDailyStatByType`: every nonempty field must pass the
per-cell check for the stat's value type. -/
def validateDailyStatByType (vt : ValueType) (r : Save7RRow) : Bool :=
  (dailyFields r).all (validCell vt)

/-! ## Write path: single weekly value (`handleLogWeeklyStats`) -/

/-- The storage-encoding switch of `handleLogWeeklyStats`: currency through
`StringToMoney`/`MoneyToUSD` (empty string becomes 0), number through
`Atoi`, percentage through `ParseFloat` then `int64(f*100 + 0.5)`. -/
def encodeWeeklyValue (vt : ValueType) (value : String) : Except WErr Int :=
  match vt with
  | .currency =>
    match StringToMoney value with
    | none => .error .validation
    | some m => .ok (MoneyToUSD m)
  | .number =>
    match atoi value with
    | none => .error .validation
    | some i => .ok i
  | .percentage =>
    match parseDec2 value with
    | none => .error .validation
    | some d => .ok (halfUpTrunc (dec2Scaled d))

/-- Row predicate of the weekly delete/query
`LOWER(name) = ? AND week_ending = ? AND user_id = ?`. -/
def weeklyKeyMatches (nm : String) (we : Int) (uid : Nat) (r : WeeklyRow) : Bool :=
  strLower r.name == nm && r.weekEnding == we && r.userId == uid

/-- Go `handleLogWeeklyStats`: require a stat id, a Thursday week-ending
date and a personal stat; validate and encode the value; then, in one
transaction, delete the user's existing row for `(short name, week ending)`
and insert the new one. -/
def handleLogWeeklyStats (reg : Registry) (st : Store) (uid : Nat)
    (statId : Nat) (date : Int) (value : String) : Except WErr Store :=
  if statId = 0 then .error .badRequest
  else if !checkIfValidWE date then .error .badDate
  else
    match lookupStat reg statId with
    | none => .error .notFound
    | some meta =>
      if meta.stype ≠ .personal then .error .scope
      else if !validateWeeklyValueByType value meta.vtype then .error .validation
      else
        match encodeWeeklyValue meta.vtype value with
        | .error e => .error e
        | .ok storeVal =>
          let nm := strLower meta.shortId
          let kept := st.weekly.filter (fun r => !weeklyKeyMatches nm date uid r)
          .ok { st with weekly := kept ++ [⟨nm, date, storeVal, uid, none⟩] }

/-! ## Write path: weekly batch (`handleSaveWeeklyEdit`) -/

/-- One row of the weekly-edit payload. -/
structure WeeklyEditRow where
  statId : Nat
  weekending : Int
  value : String
  deriving DecidableEq, Repr

/-- The storage-encoding switch of `handleSaveWeeklyEdit`: a blank value is
skipped (`continue`, no insert); otherwise as in the single write. -/
def encodeWeeklyEditValue (vt : ValueType) (value : String) : Except WErr (Option Int) :=
  if strTrim value = "" then .ok none
  else (encodeWeeklyValue vt value).map some

/-- The per-row body of `handleSaveWeeklyEdit`'s transaction loop: resolve
the stat, require personal scope, validate, encode, and collect the rows to
insert (in payload order; a blank value contributes nothing). -/
def weeklyEditInserts (reg : Registry) (uid : Nat) :
    List WeeklyEditRow → Except WErr (List WeeklyRow)
  | [] => .ok []
  | row :: rest =>
    match lookupStat reg row.statId with
    | none => .error .notFound
    | some meta =>
      if meta.stype ≠ .personal then .error .scope
      else if !validateWeeklyValueByType row.value meta.vtype then .error .validation
      else
        match encodeWeeklyEditValue meta.vtype row.value with
        | .error e => .error e
        | .ok none => weeklyEditInserts reg uid rest
        | .ok (some v) =>
          (weeklyEditInserts reg uid rest).map
            (⟨strLower meta.shortId, row.weekending, v, uid, none⟩ :: ·)

/-- Go `handleSaveWeeklyEdit`: reject an empty payload and any non-Thursday
week-ending; then, in one transaction, delete every row of the acting user
whose `week_ending` appears anywhere in the payload
(`DELETE FROM weekly_stats WHERE user_id = ? AND week_ending IN (...)`) and
insert one row per non-blank payload row; any failure rolls the whole
transaction back. -/
def handleSaveWeeklyEdit (reg : Registry) (st : Store) (uid : Nat)
    (payload : List WeeklyEditRow) : Except WErr Store :=
  if payload.isEmpty then .error .badRequest
  else if !payload.all (fun row => checkIfValidWE row.weekending) then .error .badDate
  else
    let weList := payload.map (·.weekending)
    let kept := st.weekly.filter (fun r => !(r.userId == uid && weList.contains r.weekEnding))
    match weeklyEditInserts reg uid payload with
    | .error e => .error e
    | .ok ins => .ok { st with weekly := kept ++ ins }

/-! ## Write path: daily batch (`handleSave7R`) -/

/-- The day cells of a 7R row with their offsets from the week-ending
Thursday (the quota cell is validated but never stored). -/
def dayCells (row : Save7RRow) : List (Int × String) :=
  [(0, row.thursday), (1, row.friday), (4, row.monday), (5, row.tuesday), (6, row.wednesday)]

/-- The numeric conversion of one day cell inside `handleSave7R`'s insert
loop: trim; blank is skipped; otherwise `StringToMoney` is tried first and
its cent value stored, with `Atoi` as fallback; if both fail the transaction
is rolled back. -/
def encodeDailyCell (raw : String) : Except WErr (Option Int) :=
  let r := strTrim raw
  if r = "" then .ok none
  else
    match StringToMoney r with
    | some m => .ok (some (MoneyToUSD m))
    | none =>
      match atoi r with
      | some i => .ok (some i)
      | none => .error .validation

/-- The rows one 7R payload row inserts: one `daily_stats` row per non-blank
day cell, at the cell's date. -/
def save7RRowInserts (nm : String) (uid : Nat) (we : Int) :
    List (Int × String) → Except WErr (List DailyRow)
  | [] => .ok []
  | (off, raw) :: rest =>
    match encodeDailyCell raw with
    | .error e => .error e
    | .ok none => save7RRowInserts nm uid we rest
    | .ok (some v) =>
      (save7RRowInserts nm uid we rest).map (⟨nm, we + off, v, uid⟩ :: ·)

/-- The pre-transaction validation loop of `handleSave7R`: every row's stat
must resolve by id and its cells must pass `validateDailyStatByType`. -/
def prevalidate7R (reg : Registry) : List Save7RRow → Except WErr Unit
  | [] => .ok ()
  | row :: rest =>
    match lookupStat reg row.statId with
    | none => .error .notFound
    | some meta =>
      if !validateDailyStatByType meta.vtype row then .error .validation
      else prevalidate7R reg rest

/-- The transaction loop of `handleSave7R`, threading the `daily_stats`
table: per row, resolve the stat again, require personal scope, delete the
user's rows for the stat over the five business days, and insert the
non-blank cells. -/
def save7RTx (reg : Registry) (uid : Nat) (we : Int) :
    List Save7RRow → List DailyRow → Except WErr (List DailyRow)
  | [], daily => .ok daily
  | row :: rest, daily =>
    match lookupStat reg row.statId with
    | none => .error .notFound
    | some meta =>
      if meta.stype ≠ .personal then .error .scope
      else
        let nm := strLower meta.shortId
        let kept := daily.filter
          (fun r => !(strLower r.name == nm && (week7Dates we).contains r.date && r.userId == uid))
        match save7RRowInserts nm uid we (dayCells row) with
        | .error e => .error e
        | .ok ins => save7RTx reg uid we rest (kept ++ ins)

/-- Go `handleSave7R`: require a Thursday week-ending; pre-validate every
row; then run the transaction loop; any failure rolls back (the original
store is kept). -/
def handleSave7R (reg : Registry) (st : Store) (uid : Nat) (we : Int)
    (rows : List Save7RRow) : Except WErr Store :=
  if !checkIfValidWE we then .error .badDate
  else
    match prevalidate7R reg rows with
    | .error e => .error e
    | .ok _ =>
      match save7RTx reg uid we rows st.daily with
      | .error e => .error e
      | .ok daily => .ok { st with daily := daily }

/-! ## Read paths -/

/-- Go `resolveStatIdentity`: prefer the numeric id (a missing id is a
not-found error); otherwise fall back to the case-insensitive short code,
and when no stat matches, return the short code with scope `personal`
without error; with neither input, fail. -/
def resolveStatIdentity (reg : Registry) (statId : Option Nat) (statShort : String) :
    Except WErr (String × StatType) :=
  match statId with
  | some id =>
    match lookupStat reg id with
    | none => .error .notFound
    | some meta => .ok (strLower meta.shortId, meta.stype)
  | none =>
    if statShort ≠ "" then
      match lookupStatByShort reg statShort with
      | none => .ok (strLower statShort, .personal)
      | some meta => .ok (strLower statShort, meta.stype)
    else .error .badRequest

/-- The stat-resolution prologue of `handleGetDailyStats`: by id (not found
is an error), or by short code with the not-found case silently defaulting
to scope `personal` and value type `number`. -/
def resolveDailyMeta (reg : Registry) (statId : Option Nat) (statShort : String) :
    Except WErr (String × StatType × ValueType) :=
  match statId with
  | some id =>
    match lookupStat reg id with
    | none => .error .notFound
    | some meta => .ok (strLower meta.shortId, meta.stype, meta.vtype)
  | none =>
    match lookupStatByShort reg statShort with
    | none => .ok (strLower statShort, .personal, .number)
    | some meta => .ok (strLower meta.shortId, meta.stype, meta.vtype)

/-- The per-value formatting switch of `handleGetDailyStats`: currency
renders the stored cents through `USD.String`; every other value type
renders the stored integer with `fmt.Sprintf("%d", ·)`. -/
def formatDailyValue (vt : ValueType) (v : Int) : String :=
  match vt with
  | .currency => usdString v
  | _ => intRepr v

/-- The per-day lookup of `handleGetDailyStats` for a personal stat:
`SELECT value FROM daily_stats WHERE LOWER(name)=? AND date=? AND user_id=?
LIMIT 1`, formatted per the value type; a missing row renders as the empty
string. -/
def getDailyCell (st : Store) (vt : ValueType) (nm : String) (d : Int) (uid : Nat) : String :=
  match st.daily.find? (fun r => strLower r.name == nm && r.date == d && r.userId == uid) with
  | none => ""
  | some r => formatDailyValue vt r.value

/-- Insertion into a list sorted by week-ending (stable: an equal key goes
after existing ones, matching SQL ORDER BY over the insertion order). -/
def insertByWE (r : WeeklyRow) : List WeeklyRow → List WeeklyRow
  | [] => [r]
  | x :: xs => if r.weekEnding < x.weekEnding then r :: x :: xs else x :: insertByWE r xs

/-- Sort weekly rows by week-ending ascending (`ORDER BY week_ending`). -/
def sortByWE (l : List WeeklyRow) : List WeeklyRow :=
  match l with
  | [] => []
  | x :: xs => insertByWE x (sortByWE xs)

/-- The query and output loop of `handleGetWeeklyStats`: personal stats
filter on the target user, others on `division_id IS NOT NULL`; the rows are
ordered by week ending, and each one becomes `(week_ending, value / 100)` —
`float64(v) / 100.0` regardless of the stat's value type. -/
def weeklyOut (st : Store) (nameLower : String) (statType : StatType) (uid : Nat) :
    List (Int × ℚ) :=
  let rows :=
    if statType = .personal then
      st.weekly.filter (fun r => strLower r.name == nameLower && r.userId == uid)
    else
      st.weekly.filter (fun r => strLower r.name == nameLower && !r.divisionId.isNone)
  (sortByWE rows).map (fun r => (r.weekEnding, (r.value : ℚ) / 100))

/-- Go `handleGetWeeklyStats`, from the resolved stat onward: pick the
target user (the session user, or — for an admin whose role reached the
context — an explicit `user_id` parameter), then query and emit the series
via `weeklyOut`. -/
def handleGetWeeklyStats (reg : Registry) (st : Store) (sessionUser : Nat)
    (roleCtx : Option String) (userIdParam : Option Nat)
    (statId : Option Nat) (statShort : String) : Except WErr (List (Int × ℚ)) :=
  match resolveStatIdentity reg statId statShort with
  | .error e => .error e
  | .ok (nameLower, statType) =>
    let sessionIsAdmin := roleCtx == some "admin"
    match userIdParam with
    | some uid =>
      if !sessionIsAdmin then .error .scope
      else .ok (weeklyOut st nameLower statType uid)
    | none => .ok (weeklyOut st nameLower statType sessionUser)

/-! ## Derived store predicates -/

/-- Row predicate of the daily delete/query
`LOWER(name) = ? AND date = ? AND user_id = ?`. -/
def dailyKeyMatches (nm : String) (d : Int) (uid : Nat) (r : DailyRow) : Bool :=
  strLower r.name == nm && r.date == d && r.userId == uid

/-- Number of weekly rows for one `(short name, week ending, user)` key. -/
def weeklyKeyCount (l : List WeeklyRow) (nm : String) (we : Int) (uid : Nat) : Nat :=
  l.countP (weeklyKeyMatches nm we uid)

/-- Number of daily rows for one `(short name, date, user)` key. -/
def dailyKeyCount (l : List DailyRow) (nm : String) (d : Int) (uid : Nat) : Nat :=
  l.countP (dailyKeyMatches nm d uid)

/-- At most one weekly row per `(short name, week ending, user)` key. -/
def WeeklyUniq (l : List WeeklyRow) : Prop :=
  ∀ nm we uid, weeklyKeyCount l nm we uid ≤ 1

/-- At most one daily row per `(short name, date, user)` key. -/
def DailyUniq (l : List DailyRow) : Prop :=
  ∀ nm d uid, dailyKeyCount l nm d uid ≤ 1

/-- The store key a weekly-edit payload row resolves to: the stat's
lowercased short name paired with the row's week ending (none when the stat
id does not resolve). -/
def editKey (reg : Registry) (row : WeeklyEditRow) : Option (String × Int) :=
  (lookupStat reg row.statId).map (fun m => (strLower m.shortId, row.weekending))

/-- A 7R payload row that fails stat lookup, daily validation, or the
personal-scope rule. -/
def badDaily (reg : Registry) (row : Save7RRow) : Bool :=
  match lookupStat reg row.statId with
  | none => true
  | some meta => decide (meta.stype ≠ .personal) || !validateDailyStatByType meta.vtype row

/-- A weekly-edit payload row that fails stat lookup, value validation, or
the personal-scope rule. -/
def badWeeklyEdit (reg : Registry) (row : WeeklyEditRow) : Bool :=
  match lookupStat reg row.statId with
  | none => true
  | some meta => decide (meta.stype ≠ .personal) || !validateWeeklyValueByType row.value meta.vtype

/-! ## Supporting lemmas -/

/-- Code points below the surrogate range survive `Char.ofNat` unchanged. -/
theorem toNat_ofNat_char (n : Nat) (h : n < 55296) : (Char.ofNat n).toNat = n := by
  have hv : n.isValidChar := Or.inl h
  simp [Char.ofNat, hv]
  rfl

/-- ASCII lowercasing of a character is idempotent. -/
theorem toLower_toLower (c : Char) : c.toLower.toLower = c.toLower := by
  unfold Char.toLower
  by_cases h : c.toNat ≥ 65 ∧ c.toNat ≤ 90
  · rw [if_pos h]
    have h2 : (Char.ofNat (c.toNat + 32)).toNat = c.toNat + 32 := by
      apply toNat_ofNat_char
      omega
    rw [h2]
    have hne : ¬(c.toNat + 32 ≥ 65 ∧ c.toNat + 32 ≤ 90) := by omega
    rw [if_neg hne]
  · rw [if_neg h, if_neg h]

/-- Lowercasing a string is idempotent. -/
theorem strLower_strLower (s : String) : strLower (strLower s) = strLower s := by
  show (⟨(s.data.map Char.toLower).map Char.toLower⟩ : String) = ⟨s.data.map Char.toLower⟩
  rw [List.map_map]
  congr 1
  exact List.map_congr_left (fun a _ => toLower_toLower a)

/-! ## C3 — quota pro-ration -/

/-- C3 counterexample: the claim says `quotaForDay(i, q) = q × i / 5` with
round-half-up and in particular `quotaForDay(5, q) = q`.  The code computes
`(q / 5) * i`, dividing first: for the integer weekly quota `7`, day 5 yields
`5`, not the full quota `7`; the currency path behaves the same way in cent
space (`$0.07` gives 5 cents on day 5, not 7). -/
theorem C3_counterexample :
    GetQuotaInt 5 "7" = some 5 ∧ GetQuotaInt 5 "7" ≠ some 7
    ∧ GetQuotaFloat 5 "0.07" = some 5 ∧ GetQuotaFloat 5 "0.07" ≠ some 7 := by
  refine ⟨by decide, by decide, by decide, by decide⟩

/-- C3 amended: `GetQuotaInt i q` is `(q / 5) * i` with the truncating
division applied before the multiplication, and `GetQuotaFloat i q` is the
round-half-up cent division `ToUSD(q)/5` followed by the multiplication by
`i`; day 5 recovers the full weekly quota exactly when 5 divides the scaled
quota. -/
theorem C3_amended (q q2 : String) (n : Int) (d : Dec2) (i : Int)
    (hq : q ≠ "") (hn : atoi q = some n)
    (hq2 : q2 ≠ "") (hd : parseDec2 q2 = some d) :
    GetQuotaInt i q = some (Int.tdiv n 5 * i)
    ∧ (5 ∣ n → GetQuotaInt 5 q = some n)
    ∧ GetQuotaFloat i q2 = some (usdMultiply (usdDivide (ToUSD (dec2Scaled d)) 5) i)
    ∧ (5 ∣ dec2Scaled d → 0 ≤ dec2Scaled d → GetQuotaFloat 5 q2 = some (dec2Scaled d)) := by
  have h1 : GetQuotaInt i q = some (Int.tdiv n 5 * i) := by
    simp [GetQuotaInt, if_neg hq, hn]
  have h3 : ∀ j : Int, GetQuotaFloat j q2
      = some (usdMultiply (usdDivide (ToUSD (dec2Scaled d)) 5) j) := by
    intro j
    simp [GetQuotaFloat, if_neg hq2, hd]
  refine ⟨h1, ?_, h3 i, ?_⟩
  · intro hdvd
    have := h1
    simp [GetQuotaInt, if_neg hq, hn, Int.tdiv_mul_cancel hdvd]
  · intro hdvd hpos
    obtain ⟨k, hk⟩ := hdvd
    have hk0 : 0 ≤ k := by omega
    have hu : ToUSD (dec2Scaled d) = 5 * k := by
      simp [ToUSD, halfUpTrunc, hk, hpos]
      omega
    have hdiv : usdDivide (5 * k) 5 = k := by
      unfold usdDivide
      rw [Int.tdiv_eq_ediv (by omega) (by omega)]
      omega
    have hmul : usdMultiply k 5 = 5 * k := by
      simp [usdMultiply, halfUpTrunc]
      omega
    rw [h3 5, hu, hdiv, hmul, hk]

/-- C3 witness instance. -/
theorem C3_witness :
    ("10" : String) ≠ "" ∧ atoi "10" = some 10
    ∧ ("0.10" : String) ≠ "" ∧ parseDec2 "0.10" = some ⟨false, 0, 10⟩
    ∧ (GetQuotaInt 3 "10" = some (Int.tdiv 10 5 * 3)
      ∧ ((5 : Int) ∣ 10 → GetQuotaInt 5 "10" = some 10)
      ∧ GetQuotaFloat 3 "0.10" = some (usdMultiply (usdDivide (ToUSD (dec2Scaled ⟨false, 0, 10⟩)) 5) 3)
      ∧ ((5 : Int) ∣ dec2Scaled ⟨false, 0, 10⟩ → 0 ≤ dec2Scaled ⟨false, 0, 10⟩
          → GetQuotaFloat 5 "0.10" = some (dec2Scaled ⟨false, 0, 10⟩))) := by
  refine ⟨by decide, by decide, by decide, by decide, ?_⟩
  exact C3_amended "10" "0.10" 10 ⟨false, 0, 10⟩ 3 (by decide) (by decide) (by decide) (by decide)

/-! ## C6 — number-typed daily cells -/

/-- C6 (code bug): the claim — and the rest of the code — treat a
number-typed stat's stored value as the raw integer, but `handleSave7R`'s
insert loop runs every parseable cell through `StringToMoney`/`MoneyToUSD`
first, so the daily cell `"5"` of a number-typed stat is stored as `500`,
while the weekly path (`handleLogWeeklyStats`'s number case) stores `5` for
the same input. -/
theorem C6_daily_number_scaled :
    (handleSave7R [⟨1, ⟨"SCH", .personal, .number, some 1⟩⟩] ⟨[], []⟩ 1 0
        [⟨1, "5", "", "", "", "", ""⟩]).map (fun s => s.daily)
      = .ok [⟨"sch", 0, 500, 1⟩]
    ∧ encodeWeeklyValue .number "5" = .ok 5
    ∧ encodeDailyCell "5" = .ok (some 500) := by
  refine ⟨by decide, by decide, by decide⟩

/-! ## C9 — short-code fallback fabricates metadata -/

/-- C9 counterexample: on an empty registry the short-code fallback does not
fail with a not-found error; it fabricates metadata with scope `personal`
(and value type `number` in the daily handler). -/
theorem C9_counterexample :
    resolveStatIdentity [] none "ghost" = .ok ("ghost", .personal)
    ∧ resolveDailyMeta [] none "ghost" = .ok ("ghost", .personal, .number) := by
  refine ⟨by decide, by decide⟩

/-- C9 amended: lookup by numeric id fails with a not-found error when the
stat does not exist, but the short-code fallback with no match silently
returns fabricated default metadata — scope `personal` from
`resolveStatIdentity`, and additionally value type `number` from
`handleGetDailyStats`'s resolution — rather than a not-found error. -/
theorem C9_amended (reg : Registry) (short : String) (id : Nat)
    (hshort : short ≠ "") (hmiss : lookupStatByShort reg short = none)
    (hid : lookupStat reg id = none) :
    resolveStatIdentity reg none short = .ok (strLower short, .personal)
    ∧ resolveDailyMeta reg none short = .ok (strLower short, .personal, .number)
    ∧ resolveStatIdentity reg (some id) short = .error .notFound
    ∧ resolveDailyMeta reg (some id) short = .error .notFound := by
  refine ⟨?_, ?_, ?_, ?_⟩ <;>
    simp [resolveStatIdentity, resolveDailyMeta, hshort, hmiss, hid]

/-- C9 witness instance. -/
theorem C9_witness :
    ("ghost" : String) ≠ ""
    ∧ lookupStatByShort [⟨1, ⟨"GI", .personal, .number, some 1⟩⟩] "ghost" = none
    ∧ lookupStat [⟨1, ⟨"GI", .personal, .number, some 1⟩⟩] 2 = none
    ∧ (resolveStatIdentity [⟨1, ⟨"GI", .personal, .number, some 1⟩⟩] none "ghost"
        = .ok (strLower "ghost", .personal)
      ∧ resolveDailyMeta [⟨1, ⟨"GI", .personal, .number, some 1⟩⟩] none "ghost"
        = .ok (strLower "ghost", .personal, .number)
      ∧ resolveStatIdentity [⟨1, ⟨"GI", .personal, .number, some 1⟩⟩] (some 2) "ghost"
        = .error .notFound
      ∧ resolveDailyMeta [⟨1, ⟨"GI", .personal, .number, some 1⟩⟩] (some 2) "ghost"
        = .error .notFound) := by
  refine ⟨by decide, by decide, by decide, ?_⟩
  exact C9_amended [⟨1, ⟨"GI", .personal, .number, some 1⟩⟩] "ghost" 2
    (by decide) (by decide) (by decide)

/-! ## C10 — currency round-trip and the negative-cents sign bug -/

/-- C10 (code bug): the claimed round-trip holds on the claim's own positive
example (`"1234.5"` stores 123450 and formats back as `"1234.50"`), but for
negative amounts `MoneyToUSD` adds the cents instead of subtracting them
(the parsed `Negative` flag is never consulted): `"-1.50"` is stored as
`-50` cents and formats back as `"-0.50"`, not a value numerically equal to
`-1.50`. -/
theorem C10_negative_sign_bug :
    StringToMoney "-1.50" = some ⟨-1, 50, true⟩
    ∧ (StringToMoney "-1.50").map MoneyToUSD = some (-50)
    ∧ usdString (-50) = "-0.50"
    ∧ StringToMoney "1234.5" = some ⟨1234, 50, false⟩
    ∧ (StringToMoney "1234.5").map MoneyToUSD = some 123450
    ∧ usdString 123450 = "1234.50" := by
  refine ⟨by decide, by decide, by decide, by decide, by decide, by decide⟩


/-- Mapping an `Except` does not change whether it is an error. -/
theorem isOk_map {ε α β : Type} (f : α → β) (x : Except ε α) :
    (x.map f).isOk = x.isOk := by
  cases x <;> rfl

/-- A 7R row that fails stat lookup or daily validation makes the
pre-validation loop of `handleSave7R` fail. -/
theorem prevalidate7R_err (reg : Registry) (rows : List Save7RRow) (row : Save7RRow)
    (hmem : row ∈ rows)
    (hbad : lookupStat reg row.statId = none
      ∨ ∃ meta, lookupStat reg row.statId = some meta
          ∧ validateDailyStatByType meta.vtype row = false) :
    (prevalidate7R reg rows).isOk = false := by
  induction rows with
  | nil => cases hmem
  | cons head rest ih =>
    rcases List.mem_cons.mp hmem with heq | hmem2
    · subst heq
      rcases hbad with hnone | ⟨meta, hlk, hval⟩
      · simp [prevalidate7R, hnone]
        rfl
      · simp [prevalidate7R, hlk, hval]
        rfl
    · simp only [prevalidate7R]
      cases hlk : lookupStat reg head.statId with
      | none => rfl
      | some meta =>
        by_cases hv : validateDailyStatByType meta.vtype head = true
        · simp [hv]
          exact ih hmem2
        · simp only [Bool.not_eq_true] at hv
          simp [hv]
          rfl

/-- A 7R row whose stat is not personal-scope makes the transaction loop of
`handleSave7R` fail, whatever the daily table looks like. -/
theorem save7RTx_scope_err (reg : Registry) (uid : Nat) (we : Int)
    (rows : List Save7RRow) (row : Save7RRow) (meta : StatMeta)
    (hmem : row ∈ rows) (hlk : lookupStat reg row.statId = some meta)
    (hscope : meta.stype ≠ .personal) :
    ∀ daily, (save7RTx reg uid we rows daily).isOk = false := by
  induction rows with
  | nil => cases hmem
  | cons head rest ih =>
    intro daily
    rcases List.mem_cons.mp hmem with heq | hmem2
    · subst heq
      simp [save7RTx, hlk, hscope]
      rfl
    · simp only [save7RTx]
      cases hlk2 : lookupStat reg head.statId with
      | none => rfl
      | some meta2 =>
        by_cases hs2 : meta2.stype = .personal
        · simp [hs2]
          cases hins : save7RRowInserts (strLower meta2.shortId) uid we (dayCells head) with
          | error e => rfl
          | ok ins => exact ih hmem2 _
        · simp [hs2]
          rfl

/-- Any bad 7R row (failed lookup, failed validation, or wrong scope) makes
the whole daily batch fail; nothing is committed. -/
theorem handleSave7R_bad_err (reg : Registry) (st : Store) (uid : Nat) (we : Int)
    (rows : List Save7RRow) (row : Save7RRow)
    (hmem : row ∈ rows) (hbad : badDaily reg row = true) :
    (handleSave7R reg st uid we rows).isOk = false := by
  by_cases hwe : checkIfValidWE we = true
  · simp only [handleSave7R, hwe, Bool.not_true, Bool.false_eq_true, if_false]
    cases hlk : lookupStat reg row.statId with
    | none =>
      have hpre := prevalidate7R_err reg rows row hmem (Or.inl hlk)
      cases hp : prevalidate7R reg rows with
      | error e => rfl
      | ok u => rw [hp] at hpre; cases hpre
    | some meta =>
      unfold badDaily at hbad
      rw [hlk] at hbad
      simp only [Bool.or_eq_true, decide_eq_true_eq, Bool.not_eq_true'] at hbad
      rcases hbad with hscope | hval
      · cases hp : prevalidate7R reg rows with
        | error e => rfl
        | ok u =>
          have htx := save7RTx_scope_err reg uid we rows row meta hmem hlk hscope st.daily
          cases ht : save7RTx reg uid we rows st.daily with
          | error e => rfl
          | ok d => rw [ht] at htx; cases htx
      · have hpre := prevalidate7R_err reg rows row hmem (Or.inr ⟨meta, hlk, hval⟩)
        cases hp : prevalidate7R reg rows with
        | error e => rfl
        | ok u => rw [hp] at hpre; cases hpre
  · simp only [Bool.not_eq_true] at hwe
    simp [handleSave7R, hwe]
    rfl

/-- A bad weekly-edit row makes the insert loop fail. -/
theorem weeklyEditInserts_err (reg : Registry) (uid : Nat)
    (payload : List WeeklyEditRow) (row : WeeklyEditRow)
    (hmem : row ∈ payload) (hbad : badWeeklyEdit reg row = true) :
    (weeklyEditInserts reg uid payload).isOk = false := by
  induction payload with
  | nil => cases hmem
  | cons head rest ih =>
    rcases List.mem_cons.mp hmem with heq | hmem2
    · subst heq
      unfold badWeeklyEdit at hbad
      cases hlk : lookupStat reg row.statId with
      | none =>
        simp [weeklyEditInserts, hlk]
        rfl
      | some meta =>
        rw [hlk] at hbad
        simp only [Bool.or_eq_true, decide_eq_true_eq, Bool.not_eq_true'] at hbad
        rcases hbad with hscope | hval
        · simp [weeklyEditInserts, hlk, hscope]
          rfl
        · simp [weeklyEditInserts, hlk, hval]
          split <;> rfl
    · simp only [weeklyEditInserts]
      cases hlk : lookupStat reg head.statId with
      | none => rfl
      | some meta =>
        by_cases hs : meta.stype = .personal
        · by_cases hv : validateWeeklyValueByType head.value meta.vtype = true
          · simp [hs, hv]
            cases henc : encodeWeeklyEditValue meta.vtype head.value with
            | error e => rfl
            | ok o =>
              cases o with
              | none => exact ih hmem2
              | some v =>
                rw [isOk_map]
                exact ih hmem2
          · simp only [Bool.not_eq_true] at hv
            simp [hs, hv]
            rfl
        · simp [hs]
          rfl

/-- Any bad weekly-edit row makes the whole weekly batch fail; nothing is
committed. -/
theorem handleSaveWeeklyEdit_bad_err (reg : Registry) (st : Store) (uid : Nat)
    (payload : List WeeklyEditRow) (row : WeeklyEditRow)
    (hmem : row ∈ payload) (hbad : badWeeklyEdit reg row = true) :
    (handleSaveWeeklyEdit reg st uid payload).isOk = false := by
  have hne : payload.isEmpty = false := by
    cases payload with
    | nil => cases hmem
    | cons a l => rfl
  simp only [handleSaveWeeklyEdit, hne, Bool.false_eq_true, if_false]
  by_cases hall : payload.all (fun r => checkIfValidWE r.weekending) = true
  · simp only [hall, Bool.not_true, Bool.false_eq_true, if_false]
    have hins := weeklyEditInserts_err reg uid payload row hmem hbad
    cases hi : weeklyEditInserts reg uid payload with
    | error e => rfl
    | ok ins => rw [hi] at hins; cases hins
  · simp only [Bool.not_eq_true] at hall
    simp [hall]
    rfl

/-! ## C2 — batch atomicity -/

/-- C2: for every daily batch (`handleSave7R`) and weekly batch
(`handleSaveWeeklyEdit`), if any row of the batch fails value validation,
stat lookup, or the scope rule, the whole request fails — the transaction is
rolled back before anything is committed, so in the model no new store is
produced and the stored state is left unchanged. -/
theorem C2_batch_atomicity (reg : Registry) (st : Store) (uid : Nat) (we : Int)
    (rows : List Save7RRow) (row : Save7RRow)
    (payload : List WeeklyEditRow) (prow : WeeklyEditRow)
    (hmem : row ∈ rows) (hbad : badDaily reg row = true)
    (hpmem : prow ∈ payload) (hpbad : badWeeklyEdit reg prow = true) :
    (handleSave7R reg st uid we rows).isOk = false
    ∧ (handleSaveWeeklyEdit reg st uid payload).isOk = false :=
  ⟨handleSave7R_bad_err reg st uid we rows row hmem hbad,
   handleSaveWeeklyEdit_bad_err reg st uid payload prow hpmem hpbad⟩

/-- C2 witness instance: the spec's own scenario — a daily batch of three
rows whose second row holds the invalid numeric value `"abc"` commits
nothing, and likewise for a weekly batch. -/
theorem C2_witness :
    (⟨2, "abc", "", "", "", "", ""⟩ : Save7RRow)
      ∈ [(⟨1, "1", "", "", "", "", ""⟩ : Save7RRow), ⟨2, "abc", "", "", "", "", ""⟩,
         ⟨3, "3", "", "", "", "", ""⟩]
    ∧ badDaily
        [⟨1, ⟨"A", .personal, .number, some 1⟩⟩, ⟨2, ⟨"B", .personal, .number, some 1⟩⟩,
         ⟨3, ⟨"C", .personal, .number, some 1⟩⟩] ⟨2, "abc", "", "", "", "", ""⟩ = true
    ∧ (⟨2, 0, "abc"⟩ : WeeklyEditRow) ∈ [(⟨1, 0, "1"⟩ : WeeklyEditRow), ⟨2, 0, "abc"⟩]
    ∧ badWeeklyEdit
        [⟨1, ⟨"A", .personal, .number, some 1⟩⟩, ⟨2, ⟨"B", .personal, .number, some 1⟩⟩,
         ⟨3, ⟨"C", .personal, .number, some 1⟩⟩] ⟨2, 0, "abc"⟩ = true
    ∧ ((handleSave7R
          [⟨1, ⟨"A", .personal, .number, some 1⟩⟩, ⟨2, ⟨"B", .personal, .number, some 1⟩⟩,
           ⟨3, ⟨"C", .personal, .number, some 1⟩⟩] ⟨[], []⟩ 1 0
          [⟨1, "1", "", "", "", "", ""⟩, ⟨2, "abc", "", "", "", "", ""⟩,
           ⟨3, "3", "", "", "", "", ""⟩]).isOk = false
      ∧ (handleSaveWeeklyEdit
          [⟨1, ⟨"A", .personal, .number, some 1⟩⟩, ⟨2, ⟨"B", .personal, .number, some 1⟩⟩,
           ⟨3, ⟨"C", .personal, .number, some 1⟩⟩] ⟨[], []⟩ 1
          [⟨1, 0, "1"⟩, ⟨2, 0, "abc"⟩]).isOk = false) := by
  refine ⟨by decide, by decide, by decide, by decide, ?_⟩
  exact C2_batch_atomicity
    [⟨1, ⟨"A", .personal, .number, some 1⟩⟩, ⟨2, ⟨"B", .personal, .number, some 1⟩⟩,
     ⟨3, ⟨"C", .personal, .number, some 1⟩⟩] ⟨[], []⟩ 1 0
    [⟨1, "1", "", "", "", "", ""⟩, ⟨2, "abc", "", "", "", "", ""⟩, ⟨3, "3", "", "", "", "", ""⟩]
    ⟨2, "abc", "", "", "", "", ""⟩ [⟨1, 0, "1"⟩, ⟨2, 0, "abc"⟩] ⟨2, 0, "abc"⟩
    (by decide) (by decide) (by decide) (by decide)

/-! ## C4 — percentage range validation -/

/-- C4 counterexample: the claim says every write path rejects an
out-of-range percentage such as `"150"`.  The weekly validator only checks
parseability, so both weekly write paths accept `"150"` for a
percentage-typed stat and store `15000` hundredths (150%). -/
theorem C4_counterexample :
    validateWeeklyValueByType "150" .percentage = true
    ∧ (handleLogWeeklyStats [⟨1, ⟨"PCT", .personal, .percentage, some 1⟩⟩] ⟨[], []⟩ 2 1 0
        "150").map (fun s => s.weekly)
      = .ok [⟨"pct", 0, 15000, 2, none⟩]
    ∧ (handleSaveWeeklyEdit [⟨1, ⟨"PCT", .personal, .percentage, some 1⟩⟩] ⟨[], []⟩ 2
        [⟨1, 0, "150"⟩]).map (fun s => s.weekly)
      = .ok [⟨"pct", 0, 15000, 2, none⟩] := by
  refine ⟨by decide, by decide, by decide⟩

/-- C4 amended: only the daily batch path enforces the `[0,100]` percentage
range — `validCell` rejects an out-of-range value and the whole daily batch
fails — while the weekly validator accepts any parseable decimal and
`handleLogWeeklyStats` stores its hundredths without a range check. -/
theorem C4_amended (s : String) (d : Dec2) (reg : Registry) (st : Store)
    (uid : Nat) (we : Int) (rows : List Save7RRow) (row : Save7RRow)
    (meta : StatMeta) (statId : Nat) (lmeta : StatMeta)
    (hs : s ≠ "") (htrim : strTrim s = s) (hd : parseDec2 s = some d)
    (hrange : dec2Scaled d < 0 ∨ 10000 < dec2Scaled d)
    (hmem : row ∈ rows) (hcell : s ∈ dailyFields row)
    (hlk : lookupStat reg row.statId = some meta) (hvt : meta.vtype = .percentage)
    (hid : statId ≠ 0) (hwe : checkIfValidWE we = true)
    (hlk2 : lookupStat reg statId = some lmeta)
    (hst2 : lmeta.stype = .personal) (hvt2 : lmeta.vtype = .percentage) :
    validCell .percentage s = false
    ∧ (handleSave7R reg st uid we rows).isOk = false
    ∧ validateWeeklyValueByType s .percentage = true
    ∧ handleLogWeeklyStats reg st uid statId we s
      = .ok { st with weekly :=
          st.weekly.filter (fun r => !weeklyKeyMatches (strLower lmeta.shortId) we uid r)
          ++ [⟨strLower lmeta.shortId, we, halfUpTrunc (dec2Scaled d), uid, none⟩] } := by
  have hcellF : validCell .percentage s = false := by
    simp only [validCell, hd]
    rw [if_neg hs]
    simp only [decide_eq_false_iff_not, not_and, not_le]
    omega
  have hvalF : validateDailyStatByType meta.vtype row = false := by
    rw [hvt]
    apply List.all_eq_false.mpr
    exact ⟨s, hcell, by simp [hcellF]⟩
  refine ⟨hcellF, ?_, ?_, ?_⟩
  · apply handleSave7R_bad_err reg st uid we rows row hmem
    simp [badDaily, hlk, hvalF]
  · simp only [validateWeeklyValueByType, htrim]
    rw [if_neg hs]
    simp [hd]
  · simp only [handleLogWeeklyStats, hid, hwe, hlk2]
    simp [hst2, validateWeeklyValueByType, htrim, hs, hd, hvt2, encodeWeeklyValue]

/-- C4 witness instance: the spec's own scenario, `"150"` on a
percentage-typed stat. -/
theorem C4_witness :
    ("150" : String) ≠ "" ∧ strTrim "150" = "150"
    ∧ parseDec2 "150" = some ⟨false, 150, 0⟩
    ∧ (dec2Scaled ⟨false, 150, 0⟩ < 0 ∨ 10000 < dec2Scaled ⟨false, 150, 0⟩)
    ∧ (validCell .percentage "150" = false
      ∧ (handleSave7R [⟨1, ⟨"PCT", .personal, .percentage, some 1⟩⟩] ⟨[], []⟩ 2 0
          [⟨1, "150", "", "", "", "", ""⟩]).isOk = false
      ∧ validateWeeklyValueByType "150" .percentage = true
      ∧ handleLogWeeklyStats [⟨1, ⟨"PCT", .personal, .percentage, some 1⟩⟩] ⟨[], []⟩ 2 1 0 "150"
        = .ok ⟨[⟨"pct", 0, 15000, 2, none⟩], []⟩) := by
  refine ⟨by decide, by decide, by decide, by decide, ?_⟩
  exact C4_amended "150" ⟨false, 150, 0⟩ [⟨1, ⟨"PCT", .personal, .percentage, some 1⟩⟩]
    ⟨[], []⟩ 2 0 [⟨1, "150", "", "", "", "", ""⟩] ⟨1, "150", "", "", "", "", ""⟩
    ⟨"PCT", .personal, .percentage, some 1⟩ 1 ⟨"PCT", .personal, .percentage, some 1⟩
    (by decide) (by decide) (by decide) (by decide) (by decide) (by decide)
    (by decide) (by decide) (by decide) (by decide) (by decide) (by decide) (by decide)

/-! ## C5 — personal-stat write authorisation -/

/-- C5 counterexample: the claim says an `upsertWeekly` by an actor who is
not the stat's assigned user yields a ScopeError with no row written.  The
stat here is assigned to user 1, yet user 2's write succeeds and inserts a
row authored by user 2 — the assigned owner is never consulted. -/
theorem C5_counterexample :
    (lookupStat [⟨1, ⟨"GI", .personal, .number, some 1⟩⟩] 1).map (fun m => m.assignedUserId)
      = some (some 1)
    ∧ (handleLogWeeklyStats [⟨1, ⟨"GI", .personal, .number, some 1⟩⟩] ⟨[], []⟩ 2 1 0 "5").map
        (fun s => s.weekly)
      = .ok [⟨"gi", 0, 5, 2, none⟩] := by
  refine ⟨by decide, by decide⟩

/-- C5 amended: `handleLogWeeklyStats` checks only the stat's scope type: a
non-personal stat yields the scope error and nothing is written, while for a
personal stat the write of ANY actor succeeds (subject to value validation)
and is recorded under the actor's own user id — the hypotheses make no
reference to `meta.assignedUserId`, which the handler never reads. -/
theorem C5_amended (reg : Registry) (st : Store) (uid statId : Nat) (we : Int)
    (value : String) (meta : StatMeta) (v : Int)
    (hid : statId ≠ 0) (hwe : checkIfValidWE we = true)
    (hlk : lookupStat reg statId = some meta) :
    (meta.stype ≠ .personal → handleLogWeeklyStats reg st uid statId we value = .error .scope)
    ∧ (meta.stype = .personal
      → validateWeeklyValueByType value meta.vtype = true
      → encodeWeeklyValue meta.vtype value = .ok v
      → handleLogWeeklyStats reg st uid statId we value
          = .ok { st with weekly :=
              st.weekly.filter (fun r => !weeklyKeyMatches (strLower meta.shortId) we uid r)
              ++ [⟨strLower meta.shortId, we, v, uid, none⟩] }) := by
  constructor
  · intro hscope
    simp [handleLogWeeklyStats, hid, hwe, hlk, hscope]
  · intro hpers hval henc
    simp [handleLogWeeklyStats, hid, hwe, hlk, hpers, hval, henc]

/-- C5 witness instance. -/
theorem C5_witness :
    (1 : Nat) ≠ 0 ∧ checkIfValidWE 0 = true
    ∧ lookupStat [⟨1, ⟨"GI", .personal, .number, some 1⟩⟩] 1
      = some ⟨"GI", .personal, .number, some 1⟩
    ∧ (((⟨"GI", .personal, .number, some 1⟩ : StatMeta).stype ≠ .personal
        → handleLogWeeklyStats [⟨1, ⟨"GI", .personal, .number, some 1⟩⟩] ⟨[], []⟩ 2 1 0 "5"
          = .error .scope)
      ∧ ((⟨"GI", .personal, .number, some 1⟩ : StatMeta).stype = .personal
        → validateWeeklyValueByType "5" (⟨"GI", .personal, .number, some 1⟩ : StatMeta).vtype = true
        → encodeWeeklyValue (⟨"GI", .personal, .number, some 1⟩ : StatMeta).vtype "5" = .ok 5
        → handleLogWeeklyStats [⟨1, ⟨"GI", .personal, .number, some 1⟩⟩] ⟨[], []⟩ 2 1 0 "5"
            = .ok ⟨[⟨"gi", 0, 5, 2, none⟩], []⟩)) := by
  refine ⟨by decide, by decide, by decide, ?_⟩
  exact C5_amended [⟨1, ⟨"GI", .personal, .number, some 1⟩⟩] ⟨[], []⟩ 2 1 0 "5"
    ⟨"GI", .personal, .number, some 1⟩ 5 (by decide) (by decide) (by decide)

/-! ## Digit-string rendering lemmas (read-path formatting) -/

theorem digitsVal_concat (l : List Char) (d : Char) :
    digitsVal (l ++ [d]) = digitsVal l * 10 + (d.toNat - 48) := by
  unfold digitsVal
  rw [List.foldl_append]
  rfl

theorem digitChar10_toNat (k : Nat) (h : k < 10) : (digitChar10 k).toNat = 48 + k :=
  toNat_ofNat_char _ (by omega)

theorem digitChar10_isDigit (k : Nat) (h : k < 10) : (digitChar10 k).isDigit = true := by
  interval_cases k <;> decide

theorem digitChar10_ne_dash (k : Nat) (h : k < 10) : digitChar10 k ≠ '-' := by
  interval_cases k <;> decide

theorem digitChar10_ne_plus (k : Nat) (h : k < 10) : digitChar10 k ≠ '+' := by
  interval_cases k <;> decide

theorem digitChar10_ne_dot (k : Nat) (h : k < 10) : digitChar10 k ≠ '.' := by
  interval_cases k <;> decide

theorem isDigit_ne_dash (c : Char) (h : c.isDigit = true) : c ≠ '-' := by
  intro he
  subst he
  cases h

theorem isDigit_ne_plus (c : Char) (h : c.isDigit = true) : c ≠ '+' := by
  intro he
  subst he
  cases h

theorem isDigit_ne_dot (c : Char) (h : c.isDigit = true) : c ≠ '.' := by
  intro he
  subst he
  cases h

theorem natDigitsCore_spec :
    ∀ fuel n, n < 10 ^ fuel → 0 < fuel →
    ∃ ds, (∀ acc, natDigitsCore fuel n acc = ds ++ acc)
      ∧ ds ≠ [] ∧ ds.all Char.isDigit = true ∧ digitsVal ds = n := by
  intro fuel
  induction fuel with
  | zero => intro n _ h0; cases h0
  | succ f ih =>
    intro n hn _
    by_cases h10 : n < 10
    · refine ⟨[digitChar10 n], ?_, by simp, ?_, ?_⟩
      · intro acc
        simp [natDigitsCore, h10]
      · simp [digitChar10_isDigit n h10]
      · simp [digitsVal, digitChar10_toNat n h10]
    · have hf : 0 < f := by
        rcases Nat.eq_zero_or_pos f with hf0 | hf
        · subst hf0
          simp at hn
          omega
        · exact hf
      have hn' : n / 10 < 10 ^ f := by
        have : n < 10 ^ f * 10 := by
          rw [pow_succ] at hn
          omega
        omega
      obtain ⟨ds, hacc, hne, hdig, hval⟩ := ih (n / 10) hn' hf
      refine ⟨ds ++ [digitChar10 (n % 10)], ?_, by simp, ?_, ?_⟩
      · intro acc
        simp only [natDigitsCore, h10, if_false]
        rw [hacc (digitChar10 (n % 10) :: acc), List.append_assoc]
        rfl
      · simp only [List.all_append, hdig, Bool.true_and, List.all_cons, List.all_nil,
          Bool.and_true]
        exact digitChar10_isDigit _ (Nat.mod_lt n (by omega))
      · rw [digitsVal_concat, hval, digitChar10_toNat _ (Nat.mod_lt n (by omega))]
        omega

theorem natRepr_spec (n : Nat) :
    (natRepr n).data ≠ [] ∧ (natRepr n).data.all Char.isDigit = true
    ∧ digitsVal (natRepr n).data = n := by
  have hlt : n < 10 ^ (n + 1) := by
    calc n < 10 ^ n := Nat.lt_pow_self (by omega) n
    _ ≤ 10 ^ (n + 1) := Nat.pow_le_pow_right (by omega) (by omega)
  obtain ⟨ds, hacc, hne, hdig, hval⟩ := natDigitsCore_spec (n + 1) n hlt (by omega)
  have : (natRepr n).data = ds := by
    show natDigitsCore (n + 1) n [] = ds
    rw [hacc []]
    simp
  rw [this]
  exact ⟨hne, hdig, hval⟩

theorem isDigits_natRepr (n : Nat) : isDigits (natRepr n).data = true := by
  obtain ⟨hne, hdig, _⟩ := natRepr_spec n
  simp [isDigits, hne, hdig]

theorem stripSign_digits (l : List Char) (h : l.all Char.isDigit = true) (hne : l ≠ []) :
    stripSign l = (false, l) := by
  cases l with
  | nil => cases hne rfl
  | cons c rest =>
    have hc : c.isDigit = true := by
      simp [List.all_cons] at h
      exact h.1
    simp [stripSign, isDigit_ne_dash c hc, isDigit_ne_plus c hc]

theorem atoi_intRepr (v : Int) : atoi (intRepr v) = some v := by
  obtain ⟨hne, hdig, hval⟩ := natRepr_spec v.natAbs
  have hid : isDigits (natRepr v.natAbs).data = true := by
    simp [isDigits, hne, hdig]
  by_cases hv : v < 0
  · have hdata : (intRepr v).toList = '-' :: (natRepr v.natAbs).data := by
      show (intRepr v).data = _
      simp only [intRepr, hv, if_true]
      rfl
    have hs : stripSign ((intRepr v).toList) = (true, (natRepr v.natAbs).data) := by
      rw [hdata]
      simp [stripSign]
    simp only [atoi, hs, hid, if_true, hval]
    simp only [Option.some.injEq, Bool.false_eq_true, if_false, if_true]
    omega
  · have hdata : (intRepr v).toList = (natRepr v.natAbs).data := by
      show (intRepr v).data = _
      simp only [intRepr, hv, if_false]
      rfl
    have hs : stripSign ((intRepr v).toList) = (false, (natRepr v.natAbs).data) := by
      rw [hdata]
      exact stripSign_digits _ hdig hne
    simp only [atoi, hs, hid, if_true, hval]
    simp only [Option.some.injEq, Bool.false_eq_true, if_false, if_true]
    omega

theorem splitDot_digits_dot (a b : List Char) (h : a.all Char.isDigit = true) :
    splitDot (a ++ '.' :: b) = (a, some b) := by
  induction a with
  | nil => simp [splitDot]
  | cons c rest ih =>
    simp only [List.all_cons, Bool.and_eq_true] at h
    simp only [List.cons_append, splitDot, isDigit_ne_dot c h.1, if_false]
    show (c :: (splitDot (rest ++ '.' :: b)).1, (splitDot (rest ++ '.' :: b)).2) = _
    rw [ih h.2]

theorem pad2_data (r : Nat) :
    (pad2 r).data = [digitChar10 (r / 10 % 10), digitChar10 (r % 10)] := rfl

theorem pad2_digits (r : Nat) : (pad2 r).data.all Char.isDigit = true := by
  rw [pad2_data]
  simp [digitChar10_isDigit _ (Nat.mod_lt _ (by omega)),
    digitChar10_isDigit (r % 10) (Nat.mod_lt _ (by omega))]

theorem digitsVal_pad2 (r : Nat) (h : r < 100) : digitsVal (pad2 r).data = r := by
  rw [pad2_data]
  simp only [digitsVal, List.foldl_cons, List.foldl_nil]
  rw [digitChar10_toNat _ (Nat.mod_lt _ (by omega)), digitChar10_toNat _ (Nat.mod_lt _ (by omega))]
  omega

theorem usdString_data (c : Int) (hc : 0 ≤ c) :
    (usdString c).data = (natRepr (c.natAbs / 100)).data ++ '.' :: (pad2 (c.natAbs % 100)).data := by
  simp only [usdString, if_neg (by omega : ¬ c < 0)]
  simp only [String.data_append]
  simp

theorem parseDec2_usdString (c : Int) (hc : 0 ≤ c) :
    parseDec2 (usdString c) = some ⟨false, c.natAbs / 100, c.natAbs % 100⟩ := by
  obtain ⟨hne, hdig, hval⟩ := natRepr_spec (c.natAbs / 100)
  have hdata : (usdString c).toList
      = (natRepr (c.natAbs / 100)).data ++ '.' :: (pad2 (c.natAbs % 100)).data :=
    usdString_data c hc
  have hs : stripSign ((natRepr (c.natAbs / 100)).data ++ '.' :: (pad2 (c.natAbs % 100)).data)
      = (false, (natRepr (c.natAbs / 100)).data ++ '.' :: (pad2 (c.natAbs % 100)).data) := by
    cases hd : (natRepr (c.natAbs / 100)).data with
    | nil => exact absurd hd hne
    | cons ch rest =>
      have hch : ch.isDigit = true := by
        rw [hd] at hdig
        simp only [List.all_cons, Bool.and_eq_true] at hdig
        exact hdig.1
      simp [stripSign, isDigit_ne_dash ch hch, isDigit_ne_plus ch hch]
  simp only [parseDec2, hdata, hs]
  rw [splitDot_digits_dot _ _ hdig]
  have hid : isDigits (natRepr (c.natAbs / 100)).data = true := by
    simp [isDigits, hne, hdig]
  have hfr : isDigits (pad2 (c.natAbs % 100)).data = true := by
    simp [isDigits, pad2_data, List.all_cons,
      digitChar10_isDigit _ (Nat.mod_lt _ (by omega)),
      digitChar10_isDigit ((c.natAbs % 100) % 10) (Nat.mod_lt _ (by omega))]
  have hlen : (pad2 (c.natAbs % 100)).data.length = 2 := by
    rw [pad2_data]
    rfl
  simp only [hid, hfr, hlen, Bool.true_and, Bool.and_true, Bool.and_self]
  norm_num
  exact ⟨hval, digitsVal_pad2 _ (Nat.mod_lt _ (by omega))⟩

theorem StringToMoney_usdString (c : Int) (hc : 0 ≤ c) :
    StringToMoney (usdString c) = some ⟨(c.natAbs / 100 : Nat), c.natAbs % 100, false⟩ := by
  obtain ⟨hne, _, _⟩ := natRepr_spec (c.natAbs / 100)
  have hns : usdString c ≠ "" := by
    intro he
    have hd := usdString_data c hc
    rw [he] at hd
    cases hnr : (natRepr (c.natAbs / 100)).data with
    | nil => exact absurd hnr hne
    | cons a b =>
      rw [hnr] at hd
      cases hd
  simp only [StringToMoney, if_neg hns, parseDec2_usdString c hc, Option.map_some]
  simp

theorem mem_insertByWE (r x : WeeklyRow) (l : List WeeklyRow) :
    x ∈ insertByWE r l ↔ x = r ∨ x ∈ l := by
  induction l with
  | nil => simp [insertByWE]
  | cons a as ih =>
    by_cases h : r.weekEnding < a.weekEnding
    · simp [insertByWE, h, List.mem_cons]
    · simp only [insertByWE, h, if_false, List.mem_cons, ih]
      tauto

theorem mem_sortByWE (x : WeeklyRow) (l : List WeeklyRow) :
    x ∈ sortByWE l ↔ x ∈ l := by
  induction l with
  | nil => simp [sortByWE]
  | cons a as ih =>
    simp only [sortByWE, mem_insertByWE, ih, List.mem_cons]

/-- C7 counterexample for the claim's clause that `handleGetWeeklyStats`
returns a number-typed stat's stored integer undivided: the stored value 5
comes back as 5/100, not 5. -/
theorem C7_counterexample :
    handleGetWeeklyStats [⟨1, ⟨"SCH", .personal, .number, some 1⟩⟩]
      ⟨[⟨"sch", 0, 5, 1, none⟩], []⟩ 1 none none (some 1) ""
      = .ok [(0, 1/20)]
    ∧ ((1 : ℚ)/20) ≠ 5 := by
  constructor
  · simp only [handleGetWeeklyStats, resolveStatIdentity, lookupStat, List.find?,
      weeklyOut, sortByWE, insertByWE]
    norm_num [strLower, sortByWE, insertByWE]
  · norm_num

/-- C7 amended: on the daily read path, formatting is the inverse of parsing
for currency (a stored nonnegative cent value renders through `USD.String`
and parses back to the same cents) and for number (the bare integer string
parses back with `Atoi`), while a percentage renders as the raw stored
hundredths integer, not divided; the weekly read path divides every stored
value by 100 regardless of the stat's value type, so a number-typed stat's
stored integer comes back divided by 100 there. -/
theorem C7_amended :
    (∀ c : Int, 0 ≤ c → (StringToMoney (formatDailyValue .currency c)).map MoneyToUSD = some c)
    ∧ (∀ v : Int, atoi (formatDailyValue .number v) = some v)
    ∧ (∀ v : Int, formatDailyValue .percentage v = intRepr v)
    ∧ (∀ st nm t uid p, p ∈ weeklyOut st nm t uid
        → ∃ r, r ∈ st.weekly ∧ p = (r.weekEnding, (r.value : ℚ) / 100)) := by
  refine ⟨?_, ?_, ?_, ?_⟩
  · intro c hc
    show (StringToMoney (usdString c)).map MoneyToUSD = some c
    rw [StringToMoney_usdString c hc]
    simp only [Option.map_some', MoneyToUSD, Option.some.injEq]
    omega
  · intro v
    exact atoi_intRepr v
  · intro v
    rfl
  · intro st nm t uid p hp
    unfold weeklyOut at hp
    by_cases ht : t = StatType.personal <;>
      simp only [ht, if_true, if_false, reduceIte] at hp <;>
      rw [List.mem_map] at hp <;>
      obtain ⟨r, hr, hpr⟩ := hp <;>
      rw [mem_sortByWE, List.mem_filter] at hr <;>
      exact ⟨r, hr.1, hpr.symm⟩

/-- C7 witness instance. -/
theorem C7_witness :
    (0 : Int) ≤ 123450
    ∧ (StringToMoney (formatDailyValue .currency 123450)).map MoneyToUSD = some 123450
    ∧ atoi (formatDailyValue .number (-7)) = some (-7)
    ∧ formatDailyValue .percentage 1234 = intRepr 1234
    ∧ ((0 : Int), (5 : ℚ)/100) ∈ weeklyOut ⟨[⟨"sch", 0, 5, 1, none⟩], []⟩ "sch" .personal 1
    ∧ ∃ r, r ∈ (⟨[⟨"sch", 0, 5, 1, none⟩], []⟩ : Store).weekly
        ∧ ((0 : Int), (5 : ℚ)/100) = (r.weekEnding, (r.value : ℚ) / 100) := by
  have hmem : ((0 : Int), (5 : ℚ)/100)
      ∈ weeklyOut ⟨[⟨"sch", 0, 5, 1, none⟩], []⟩ "sch" .personal 1 := by
    unfold weeklyOut
    simp [sortByWE, insertByWE, strLower]
  refine ⟨by decide, C7_amended.1 123450 (by decide), C7_amended.2.1 (-7),
    C7_amended.2.2.1 1234, hmem, ?_⟩
  exact C7_amended.2.2.2 ⟨[⟨"sch", 0, 5, 1, none⟩], []⟩ "sch" .personal 1
    ((0 : Int), (5 : ℚ)/100) hmem

/-! ## Store-level characterisations and uniqueness lemmas -/

theorem countP_le_one_key {α β : Type} [DecidableEq β] (key : α → β) (p : α → Bool)
    (l : List α) (hn : (l.map key).Nodup)
    (hp : ∀ a ∈ l, ∀ b ∈ l, p a = true → p b = true → key a = key b) :
    l.countP p ≤ 1 := by
  induction l with
  | nil => simp
  | cons x xs ih =>
    rw [List.map_cons, List.nodup_cons] at hn
    by_cases hx : p x = true
    · rw [List.countP_cons_of_pos _ _ hx]
      have h0 : xs.countP p = 0 := by
        apply List.countP_eq_zero.mpr
        intro a ha hpa
        apply hn.1
        rw [← hp a (List.mem_cons_of_mem x ha) x (List.mem_cons_self x xs) hpa hx]
        exact List.mem_map_of_mem key ha
      omega
    · rw [List.countP_cons_of_neg _ _ (by simpa using hx)]
      exact ih hn.2 (fun a ha b hb => hp a (List.mem_cons_of_mem x ha) b (List.mem_cons_of_mem x hb))

theorem countP_filter_not_zero {α : Type} (p q : α → Bool)
    (l : List α) (himp : ∀ a ∈ l, p a = true → q a = true) :
    (l.filter (fun a => !q a)).countP p = 0 := by
  apply List.countP_eq_zero.mpr
  intro a ha hpa
  rcases List.mem_filter.mp ha with ⟨hmem, hq⟩
  rw [himp a hmem hpa] at hq
  cases hq

theorem countP_filter_le {α : Type} (p q : α → Bool) (l : List α) :
    (l.filter q).countP p ≤ l.countP p :=
  (List.filter_sublist l).countP_le p

theorem handleLogWeeklyStats_ok (reg : Registry) (st : Store) (uid statId : Nat)
    (date : Int) (value : String) (st' : Store)
    (h : handleLogWeeklyStats reg st uid statId date value = .ok st') :
    ∃ meta v, lookupStat reg statId = some meta
      ∧ encodeWeeklyValue meta.vtype value = .ok v
      ∧ st'.weekly = st.weekly.filter
          (fun r => !weeklyKeyMatches (strLower meta.shortId) date uid r)
          ++ [⟨strLower meta.shortId, date, v, uid, none⟩]
      ∧ st'.daily = st.daily := by
  unfold handleLogWeeklyStats at h
  split at h
  · cases h
  · split at h
    · cases h
    · split at h
      · cases h
      · next meta hlk =>
        split at h
        · cases h
        · split at h
          · cases h
          · split at h
            · cases h
            · next v henc =>
              cases h
              exact ⟨meta, v, hlk, henc, rfl, rfl⟩

theorem countP_singleton_le_one {α : Type} (p : α → Bool) (x : α) : List.countP p [x] ≤ 1 := by
  rw [List.countP_cons, List.countP_nil]
  split <;> omega

theorem logWeekly_uniq (reg : Registry) (st : Store) (uid statId : Nat)
    (date : Int) (value : String) (st' : Store)
    (hu : WeeklyUniq st.weekly)
    (h : handleLogWeeklyStats reg st uid statId date value = .ok st') :
    WeeklyUniq st'.weekly := by
  obtain ⟨meta, v, hlk, henc, hw, hd⟩ :=
    handleLogWeeklyStats_ok reg st uid statId date value st' h
  intro nm we u
  rw [weeklyKeyCount, hw, List.countP_append]
  by_cases hmatch : weeklyKeyMatches nm we u
      (⟨strLower meta.shortId, date, v, uid, none⟩ : WeeklyRow) = true
  · have h1 : (strLower (strLower meta.shortId) = nm ∧ date = we) ∧ uid = u := by
      simpa [weeklyKeyMatches] using hmatch
    obtain ⟨⟨hnm', hwe'⟩, huid'⟩ := h1
    subst hwe'
    subst huid'
    have hnm : nm = strLower meta.shortId := by
      rw [← hnm', strLower_strLower]
    subst hnm
    have hkept : (st.weekly.filter
        (fun r => !weeklyKeyMatches (strLower meta.shortId) date uid r)).countP
        (weeklyKeyMatches (strLower meta.shortId) date uid) = 0 :=
      countP_filter_not_zero _ _ _ (fun a _ ha => ha)
    rw [hkept]
    simpa using countP_singleton_le_one _ _
  · have h2 : List.countP (weeklyKeyMatches nm we u)
        [(⟨strLower meta.shortId, date, v, uid, none⟩ : WeeklyRow)] = 0 := by
      rw [List.countP_cons, List.countP_nil]
      simp [hmatch]
    rw [h2]
    have := countP_filter_le (weeklyKeyMatches nm we u)
      (fun r => !weeklyKeyMatches (strLower meta.shortId) date uid r) st.weekly
    have hu1 := hu nm we u
    rw [weeklyKeyCount] at hu1
    omega

theorem weeklyEditInserts_spec (reg : Registry) (uid : Nat) :
    ∀ payload ins, weeklyEditInserts reg uid payload = .ok ins →
    (∀ r ∈ ins, r.userId = uid ∧ r.weekEnding ∈ payload.map (·.weekending)
      ∧ strLower r.name = r.name)
    ∧ (ins.map (fun r => (r.name, r.weekEnding))).Sublist
        (payload.filterMap (editKey reg)) := by
  intro payload
  induction payload with
  | nil =>
    intro ins h
    injection h with h2
    subst h2
    exact ⟨fun r hr => absurd hr (List.not_mem_nil r), by simp⟩
  | cons head rest ih =>
    intro ins h
    unfold weeklyEditInserts at h
    split at h
    · cases h
    · next meta hlk =>
      have hkey : editKey reg head = some (strLower meta.shortId, head.weekending) := by
        simp [editKey, hlk]
      split at h
      · cases h
      · split at h
        · cases h
        · split at h
          · cases h
          · -- blank value: skip
            obtain ⟨hmem, hsub⟩ := ih ins h
            refine ⟨?_, ?_⟩
            · intro r hr
              obtain ⟨h1, h2, h3⟩ := hmem r hr
              exact ⟨h1, by simpa using Or.inr (by simpa using h2), h3⟩
            · rw [List.filterMap_cons, hkey]
              exact hsub.cons _
          · next v henc =>
            cases hrest : weeklyEditInserts reg uid rest with
            | error e => rw [hrest] at h; cases h
            | ok tail =>
              rw [hrest] at h
              injection h with h2
              subst h2
              obtain ⟨hmem, hsub⟩ := ih tail hrest
              refine ⟨?_, ?_⟩
              · intro r hr
                rcases List.mem_cons.mp hr with heq | hr2
                · subst heq
                  exact ⟨rfl, by simp, strLower_strLower _⟩
                · obtain ⟨h1, h2, h3⟩ := hmem r hr2
                  exact ⟨h1, by simpa using Or.inr (by simpa using h2), h3⟩
              · rw [List.filterMap_cons, hkey, List.map_cons]
                exact hsub.cons₂ _

theorem handleSaveWeeklyEdit_ok (reg : Registry) (st : Store) (uid : Nat)
    (payload : List WeeklyEditRow) (st' : Store)
    (h : handleSaveWeeklyEdit reg st uid payload = .ok st') :
    ∃ ins, weeklyEditInserts reg uid payload = .ok ins
      ∧ st'.weekly = st.weekly.filter
          (fun r => !(r.userId == uid && (payload.map (·.weekending)).contains r.weekEnding))
        ++ ins
      ∧ st'.daily = st.daily := by
  unfold handleSaveWeeklyEdit at h
  split at h
  · cases h
  · split at h
    · cases h
    · split at h
      · cases h
      · next ins hins =>
        cases h
        exact ⟨ins, hins, rfl, rfl⟩

theorem weeklyEdit_uniq (reg : Registry) (st : Store) (uid : Nat)
    (payload : List WeeklyEditRow) (st' : Store)
    (hu : WeeklyUniq st.weekly)
    (hnd : (payload.filterMap (editKey reg)).Nodup)
    (h : handleSaveWeeklyEdit reg st uid payload = .ok st') :
    WeeklyUniq st'.weekly := by
  obtain ⟨ins, hins, hw, hd⟩ := handleSaveWeeklyEdit_ok reg st uid payload st' h
  obtain ⟨hmem, hsub⟩ := weeklyEditInserts_spec reg uid payload ins hins
  intro nm we u
  rw [weeklyKeyCount, hw, List.countP_append]
  by_cases hex : ∃ r ∈ ins, weeklyKeyMatches nm we u r = true
  · obtain ⟨r0, hr0, hm0⟩ := hex
    obtain ⟨hr0u, hr0we, hr0nm⟩ := hmem r0 hr0
    have hm0' : (strLower r0.name = nm ∧ r0.weekEnding = we) ∧ r0.userId = u := by
      simpa [weeklyKeyMatches] using hm0
    have huuid : u = uid := by rw [← hm0'.2, hr0u]
    have hwe : we ∈ payload.map (·.weekending) := by rw [← hm0'.1.2]; exact hr0we
    have hkept : (st.weekly.filter
        (fun r => !(r.userId == uid && (payload.map (·.weekending)).contains r.weekEnding))).countP
        (weeklyKeyMatches nm we u) = 0 := by
      apply countP_filter_not_zero
      intro a hamem hpa
      have hpa' : (strLower a.name = nm ∧ a.weekEnding = we) ∧ a.userId = u := by
        simpa [weeklyKeyMatches] using hpa
      have h1 : a.userId == uid := by
        simp [hpa'.2, huuid]
      have h2 : (payload.map (·.weekending)).contains a.weekEnding = true := by
        rw [hpa'.1.2]
        exact List.elem_eq_true_of_mem hwe
      simp only [h1, h2, Bool.and_self]
    have hinsle : ins.countP (weeklyKeyMatches nm we u) ≤ 1 := by
      apply countP_le_one_key (fun r => (r.name, r.weekEnding))
      · exact hsub.nodup hnd
      · intro a ha b hb hpa hpb
        have hpa' : (strLower a.name = nm ∧ a.weekEnding = we) ∧ a.userId = u := by
          simpa [weeklyKeyMatches] using hpa
        have hpb' : (strLower b.name = nm ∧ b.weekEnding = we) ∧ b.userId = u := by
          simpa [weeklyKeyMatches] using hpb
        have hna : a.name = nm := by rw [← hpa'.1.1, (hmem a ha).2.2]
        have hnb : b.name = nm := by rw [← hpb'.1.1, (hmem b hb).2.2]
        simp [hna, hnb, hpa'.1.2, hpb'.1.2]
    rw [hkept]
    omega
  · push_neg at hex
    have hz : ins.countP (weeklyKeyMatches nm we u) = 0 := by
      apply List.countP_eq_zero.mpr
      intro a ha
      simpa using hex a ha
    rw [hz]
    have hle := countP_filter_le (weeklyKeyMatches nm we u)
      (fun r => !(r.userId == uid && (payload.map (·.weekending)).contains r.weekEnding))
      st.weekly
    have hu1 := hu nm we u
    rw [weeklyKeyCount] at hu1
    omega

theorem save7RRowInserts_spec (nm : String) (uid : Nat) (we : Int) :
    ∀ cells ins, save7RRowInserts nm uid we cells = .ok ins →
    (∀ r ∈ ins, r.name = nm ∧ r.userId = uid)
    ∧ (ins.map (·.date)).Sublist (cells.map (fun c => we + c.1)) := by
  intro cells
  induction cells with
  | nil =>
    intro ins h
    injection h with h2
    subst h2
    exact ⟨fun r hr => absurd hr (List.not_mem_nil r), by simp⟩
  | cons c rest ih =>
    obtain ⟨off, raw⟩ := c
    intro ins h
    unfold save7RRowInserts at h
    split at h
    · cases h
    · obtain ⟨hmem, hsub⟩ := ih ins h
      exact ⟨hmem, by rw [List.map_cons]; exact hsub.cons _⟩
    · next v henc =>
      cases hrest : save7RRowInserts nm uid we rest with
      | error e => rw [hrest] at h; cases h
      | ok tail =>
        rw [hrest] at h
        injection h with h2
        subst h2
        obtain ⟨hmem, hsub⟩ := ih tail hrest
        refine ⟨?_, ?_⟩
        · intro r hr
          rcases List.mem_cons.mp hr with heq | hr2
          · subst heq
            exact ⟨rfl, rfl⟩
          · exact hmem r hr2
        · rw [List.map_cons, List.map_cons]
          exact hsub.cons₂ _

theorem week7Dates_nodup (we : Int) : (week7Dates we).Nodup := by
  simp [week7Dates, List.nodup_cons, List.mem_cons]

theorem dayCells_dates (we : Int) (row : Save7RRow) :
    (dayCells row).map (fun c => we + c.1) = week7Dates we := by
  simp [dayCells, week7Dates]

theorem save7RStep_uniq (uid : Nat) (we : Int) (nm : String) (daily ins : List DailyRow)
    (hu : DailyUniq daily) (hstable : strLower nm = nm)
    (hmem : ∀ r ∈ ins, r.name = nm ∧ r.userId = uid)
    (hdates : (ins.map (·.date)).Sublist (week7Dates we)) :
    DailyUniq (daily.filter
      (fun r => !(strLower r.name == nm && (week7Dates we).contains r.date && r.userId == uid))
      ++ ins) := by
  intro nm0 d0 u0
  rw [dailyKeyCount, List.countP_append]
  by_cases hex : ∃ r ∈ ins, dailyKeyMatches nm0 d0 u0 r = true
  · obtain ⟨r0, hr0, hm0⟩ := hex
    obtain ⟨hr0n, hr0u⟩ := hmem r0 hr0
    have hm0' : (strLower r0.name = nm0 ∧ r0.date = d0) ∧ r0.userId = u0 := by
      simpa [dailyKeyMatches] using hm0
    have hnm0 : nm0 = nm := by
      rw [← hm0'.1.1, hr0n, hstable]
    have hu0 : u0 = uid := by rw [← hm0'.2, hr0u]
    have hd0 : d0 ∈ week7Dates we := by
      rw [← hm0'.1.2]
      exact hdates.mem (List.mem_map_of_mem _ hr0)
    have hkept : (daily.filter
        (fun r => !(strLower r.name == nm && (week7Dates we).contains r.date && r.userId == uid))).countP
        (dailyKeyMatches nm0 d0 u0) = 0 := by
      apply countP_filter_not_zero
      intro a hamem hpa
      have hpa' : (strLower a.name = nm0 ∧ a.date = d0) ∧ a.userId = u0 := by
        simpa [dailyKeyMatches] using hpa
      have h1 : (strLower a.name == nm) = true := by
        simp [hpa'.1.1, hnm0]
      have h2 : (week7Dates we).contains a.date = true := by
        rw [hpa'.1.2]
        exact List.elem_eq_true_of_mem hd0
      have h3 : (a.userId == uid) = true := by
        simp [hpa'.2, hu0]
      simp only [h1, h2, h3, Bool.and_self]
    have hinsle : ins.countP (dailyKeyMatches nm0 d0 u0) ≤ 1 := by
      apply countP_le_one_key (fun r => r.date)
      · exact hdates.nodup (week7Dates_nodup we)
      · intro a ha b hb hpa hpb
        have hpa' : (strLower a.name = nm0 ∧ a.date = d0) ∧ a.userId = u0 := by
          simpa [dailyKeyMatches] using hpa
        have hpb' : (strLower b.name = nm0 ∧ b.date = d0) ∧ b.userId = u0 := by
          simpa [dailyKeyMatches] using hpb
        rw [hpa'.1.2, hpb'.1.2]
    rw [hkept]
    omega
  · push_neg at hex
    have hz : ins.countP (dailyKeyMatches nm0 d0 u0) = 0 := by
      apply List.countP_eq_zero.mpr
      intro a ha
      simpa using hex a ha
    rw [hz]
    have hle := countP_filter_le (dailyKeyMatches nm0 d0 u0)
      (fun r => !(strLower r.name == nm && (week7Dates we).contains r.date && r.userId == uid))
      daily
    have hu1 := hu nm0 d0 u0
    rw [dailyKeyCount] at hu1
    omega

theorem save7RTx_uniq (reg : Registry) (uid : Nat) (we : Int) :
    ∀ rows daily d', DailyUniq daily → save7RTx reg uid we rows daily = .ok d'
      → DailyUniq d' := by
  intro rows
  induction rows with
  | nil =>
    intro daily d' hu h
    injection h with h2
    subst h2
    exact hu
  | cons row rest ih =>
    intro daily d' hu h
    unfold save7RTx at h
    split at h
    · cases h
    · next meta hlk =>
      split at h
      · cases h
      · dsimp only at h
        split at h
        · cases h
        · next ins hins =>
          obtain ⟨hmem, hsub⟩ :=
            save7RRowInserts_spec (strLower meta.shortId) uid we (dayCells row) ins hins
          rw [dayCells_dates we row] at hsub
          exact ih _ d'
            (save7RStep_uniq uid we (strLower meta.shortId) daily ins hu
              (strLower_strLower _) hmem hsub) h

theorem handleSave7R_ok (reg : Registry) (st : Store) (uid : Nat) (we : Int)
    (rows : List Save7RRow) (st' : Store)
    (h : handleSave7R reg st uid we rows = .ok st') :
    st'.weekly = st.weekly ∧ save7RTx reg uid we rows st.daily = .ok st'.daily := by
  unfold handleSave7R at h
  split at h
  · cases h
  · split at h
    · cases h
    · split at h
      · cases h
      · next daily hd =>
        cases h
        exact ⟨rfl, hd⟩

/-! ## C1 — at most one canonical row per key -/

/-- C1 counterexample: the claim says the weekly table holds at most one row
per (statId, weekEndingDate) and that a repeated upsert replaces the row.
A single weekly batch that names the same (statId, weekEnding) twice deletes
the user's old rows once and then inserts BOTH payload rows, leaving two
rows for the same stat and week (even for one writer). -/
theorem C1_counterexample :
    (handleSaveWeeklyEdit [⟨1, ⟨"SCH", .personal, .number, some 1⟩⟩] ⟨[], []⟩ 1
      [⟨1, 0, "1"⟩, ⟨1, 0, "2"⟩]).map (fun s => s.weekly)
      = .ok [⟨"sch", 0, 1, 1, none⟩, ⟨"sch", 0, 2, 1, none⟩]
    ∧ (handleSaveWeeklyEdit [⟨1, ⟨"SCH", .personal, .number, some 1⟩⟩] ⟨[], []⟩ 1
      [⟨1, 0, "1"⟩, ⟨1, 0, "2"⟩]).map (fun s => weeklyKeyCount s.weekly "sch" 0 1)
      = .ok 2 := by
  refine ⟨by decide, by decide⟩

/-- C1 amended: rows are keyed by (lowercased stat short name, weekEnding,
writing user), not by (statId, periodKey) alone.  Per that key: a single
weekly upsert preserves at-most-one-row and leaves exactly the one new row
for the written key (replacement, not append); a weekly batch preserves it
provided the batch does not resolve two payload rows to the same
(short name, weekEnding) key; and a daily batch preserves the daily table's
at-most-one-row per (short name, date, user) unconditionally, leaving the
weekly table untouched. -/
theorem C1_amended (reg : Registry) (st : Store) (uid : Nat) :
    (∀ statId date value st', WeeklyUniq st.weekly
      → handleLogWeeklyStats reg st uid statId date value = .ok st'
      → WeeklyUniq st'.weekly
        ∧ ∃ meta v, lookupStat reg statId = some meta
            ∧ encodeWeeklyValue meta.vtype value = .ok v
            ∧ st'.weekly.filter (weeklyKeyMatches (strLower meta.shortId) date uid)
                = [⟨strLower meta.shortId, date, v, uid, none⟩])
    ∧ (∀ payload st', WeeklyUniq st.weekly
      → (payload.filterMap (editKey reg)).Nodup
      → handleSaveWeeklyEdit reg st uid payload = .ok st'
      → WeeklyUniq st'.weekly)
    ∧ (∀ we rows st', DailyUniq st.daily
      → handleSave7R reg st uid we rows = .ok st'
      → DailyUniq st'.daily ∧ st'.weekly = st.weekly) := by
  refine ⟨?_, ?_, ?_⟩
  · intro statId date value st' hu h
    refine ⟨logWeekly_uniq reg st uid statId date value st' hu h, ?_⟩
    obtain ⟨meta, v, hlk, henc, hw, hd⟩ :=
      handleLogWeeklyStats_ok reg st uid statId date value st' h
    refine ⟨meta, v, hlk, henc, ?_⟩
    rw [hw, List.filter_append]
    have h1 : (st.weekly.filter
        (fun r => !weeklyKeyMatches (strLower meta.shortId) date uid r)).filter
        (weeklyKeyMatches (strLower meta.shortId) date uid) = [] := by
      apply List.filter_eq_nil_iff.mpr
      intro a ha
      rcases List.mem_filter.mp ha with ⟨_, hq⟩
      simp only [Bool.not_eq_true'] at hq
      simp [hq]
    have h2 : List.filter (weeklyKeyMatches (strLower meta.shortId) date uid)
        [(⟨strLower meta.shortId, date, v, uid, none⟩ : WeeklyRow)]
        = [⟨strLower meta.shortId, date, v, uid, none⟩] := by
      simp [List.filter_cons, weeklyKeyMatches, strLower_strLower]
    rw [h1, h2, List.nil_append]
  · intro payload st' hu hnd h
    exact weeklyEdit_uniq reg st uid payload st' hu hnd h
  · intro we rows st' hu h
    obtain ⟨hw, htx⟩ := handleSave7R_ok reg st uid we rows st' h
    exact ⟨save7RTx_uniq reg uid we rows st.daily st'.daily hu htx, hw⟩

/-- C1 witness instance. -/
theorem C1_witness :
    WeeklyUniq (⟨[], []⟩ : Store).weekly
    ∧ DailyUniq (⟨[], []⟩ : Store).daily
    ∧ handleLogWeeklyStats [⟨1, ⟨"GI", .personal, .number, some 1⟩⟩] ⟨[], []⟩ 1 1 0 "5"
      = .ok ⟨[⟨"gi", 0, 5, 1, none⟩], []⟩
    ∧ ([(⟨1, 0, "5"⟩ : WeeklyEditRow)].filterMap
        (editKey [⟨1, ⟨"GI", .personal, .number, some 1⟩⟩])).Nodup
    ∧ handleSaveWeeklyEdit [⟨1, ⟨"GI", .personal, .number, some 1⟩⟩] ⟨[], []⟩ 1 [⟨1, 0, "5"⟩]
      = .ok ⟨[⟨"gi", 0, 5, 1, none⟩], []⟩
    ∧ handleSave7R [⟨1, ⟨"GI", .personal, .number, some 1⟩⟩] ⟨[], []⟩ 1 0
        [⟨1, "5", "", "", "", "", ""⟩]
      = .ok ⟨[], [⟨"gi", 0, 500, 1⟩]⟩
    ∧ (WeeklyUniq [(⟨"gi", 0, 5, 1, none⟩ : WeeklyRow)]
      ∧ ∃ meta v, lookupStat [⟨1, ⟨"GI", .personal, .number, some 1⟩⟩] 1 = some meta
          ∧ encodeWeeklyValue meta.vtype "5" = .ok v
          ∧ [(⟨"gi", 0, 5, 1, none⟩ : WeeklyRow)].filter
              (weeklyKeyMatches (strLower meta.shortId) 0 1)
              = [⟨strLower meta.shortId, 0, v, 1, none⟩])
    ∧ WeeklyUniq [(⟨"gi", 0, 5, 1, none⟩ : WeeklyRow)]
    ∧ (DailyUniq [(⟨"gi", 0, 500, 1⟩ : DailyRow)]
      ∧ (⟨[], [⟨"gi", 0, 500, 1⟩]⟩ : Store).weekly = (⟨[], []⟩ : Store).weekly) := by
  have huW : WeeklyUniq (⟨[], []⟩ : Store).weekly := by
    intro nm we u
    simp [weeklyKeyCount]
  have huD : DailyUniq (⟨[], []⟩ : Store).daily := by
    intro nm d u
    simp [dailyKeyCount]
  have h1 : handleLogWeeklyStats [⟨1, ⟨"GI", .personal, .number, some 1⟩⟩] ⟨[], []⟩ 1 1 0 "5"
      = .ok ⟨[⟨"gi", 0, 5, 1, none⟩], []⟩ := by decide
  have h2 : handleSaveWeeklyEdit [⟨1, ⟨"GI", .personal, .number, some 1⟩⟩] ⟨[], []⟩ 1 [⟨1, 0, "5"⟩]
      = .ok ⟨[⟨"gi", 0, 5, 1, none⟩], []⟩ := by decide
  have h3 : handleSave7R [⟨1, ⟨"GI", .personal, .number, some 1⟩⟩] ⟨[], []⟩ 1 0
        [⟨1, "5", "", "", "", "", ""⟩]
      = .ok ⟨[], [⟨"gi", 0, 500, 1⟩]⟩ := by decide
  obtain ⟨ha, hb, hc⟩ := C1_amended [⟨1, ⟨"GI", .personal, .number, some 1⟩⟩] ⟨[], []⟩ 1
  refine ⟨huW, huD, h1, by decide, h2, h3, ha 1 0 "5" _ huW h1, hb [⟨1, 0, "5"⟩] _ huW (by decide) h2,
    hc 0 [⟨1, "5", "", "", "", "", ""⟩] _ huD h3⟩

/-! ## C8 — frame property of the weekly batch -/

/-- C8 counterexample: the claim says rows for (statId, weekEnding) pairs
not named in the request survive a weekly batch.  The batch's delete clears
ALL of the acting user's rows for every named weekEnding: user 1's row for
stat "VSD" at week 0 is deleted by a batch that names only stat "GI" at
week 0. -/
theorem C8_counterexample :
    (handleSaveWeeklyEdit
      [⟨1, ⟨"GI", .personal, .number, some 1⟩⟩, ⟨2, ⟨"VSD", .personal, .number, some 1⟩⟩]
      ⟨[⟨"vsd", 0, 7, 1, none⟩], []⟩ 1 [⟨1, 0, "1"⟩]).map (fun s => s.weekly)
      = .ok [⟨"gi", 0, 1, 1, none⟩]
    ∧ ¬ (⟨"vsd", 0, 7, 1, none⟩ : WeeklyRow) ∈ ([⟨"gi", 0, 1, 1, none⟩] : List WeeklyRow) := by
  refine ⟨by decide, by decide⟩

/-- C8 amended: a weekly batch touches only the acting user's rows for the
weekendings named in the request — every row of another user, or for an
unnamed weekEnding, survives — and every row of the new store is either an
old row or one of the batch's inserts (authored by the acting user for a
named weekEnding); the daily table is untouched.  Within a named weekEnding
the acting user's rows are deleted wholesale, including stats the request
does not name (see the counterexample). -/
theorem C8_amended (reg : Registry) (st : Store) (uid : Nat)
    (payload : List WeeklyEditRow) (st' : Store)
    (h : handleSaveWeeklyEdit reg st uid payload = .ok st') :
    (∀ r ∈ st.weekly, (r.userId ≠ uid ∨ r.weekEnding ∉ payload.map (·.weekending))
        → r ∈ st'.weekly)
    ∧ (∀ r ∈ st'.weekly, r ∈ st.weekly
        ∨ (r.userId = uid ∧ r.weekEnding ∈ payload.map (·.weekending)))
    ∧ st'.daily = st.daily := by
  obtain ⟨ins, hins, hw, hd⟩ := handleSaveWeeklyEdit_ok reg st uid payload st' h
  obtain ⟨hmem, _⟩ := weeklyEditInserts_spec reg uid payload ins hins
  refine ⟨?_, ?_, hd⟩
  · intro r hr hcond
    rw [hw]
    apply List.mem_append_left
    apply List.mem_filter.mpr
    refine ⟨hr, ?_⟩
    have hfalse : (r.userId == uid
        && (payload.map (·.weekending)).contains r.weekEnding) = false := by
      rcases hcond with hne | hnotin
      · have huf : (r.userId == uid) = false := by
          simp [hne]
        simp only [huf, Bool.false_and]
      · have hcf : (payload.map (·.weekending)).contains r.weekEnding = false := by
          cases hcont : (payload.map (·.weekending)).contains r.weekEnding with
          | false => rfl
          | true => exact absurd (List.mem_of_elem_eq_true hcont) hnotin
        simp only [hcf, Bool.and_false]
    simp only [hfalse, Bool.not_false]
  · intro r hr
    rw [hw] at hr
    rcases List.mem_append.mp hr with hk | hi
    · exact Or.inl (List.mem_filter.mp hk).1
    · exact Or.inr ⟨(hmem r hi).1, (hmem r hi).2.1⟩

/-- C8 witness instance: the batch deletes user 1's VSD row at the named
week 0 but preserves user 2's row at week 7. -/
theorem C8_witness :
    handleSaveWeeklyEdit
      [⟨1, ⟨"GI", .personal, .number, some 1⟩⟩, ⟨2, ⟨"VSD", .personal, .number, some 1⟩⟩]
      ⟨[⟨"vsd", 0, 7, 1, none⟩, ⟨"vsd", 7, 9, 2, none⟩], []⟩ 1 [⟨1, 0, "1"⟩]
      = .ok ⟨[⟨"vsd", 7, 9, 2, none⟩, ⟨"gi", 0, 1, 1, none⟩], []⟩
    ∧ ((∀ r ∈ (⟨[⟨"vsd", 0, 7, 1, none⟩, ⟨"vsd", 7, 9, 2, none⟩], []⟩ : Store).weekly,
        (r.userId ≠ 1 ∨ r.weekEnding ∉ [(⟨1, 0, "1"⟩ : WeeklyEditRow)].map (·.weekending))
        → r ∈ (⟨[⟨"vsd", 7, 9, 2, none⟩, ⟨"gi", 0, 1, 1, none⟩], []⟩ : Store).weekly)
      ∧ (∀ r ∈ (⟨[⟨"vsd", 7, 9, 2, none⟩, ⟨"gi", 0, 1, 1, none⟩], []⟩ : Store).weekly,
          r ∈ (⟨[⟨"vsd", 0, 7, 1, none⟩, ⟨"vsd", 7, 9, 2, none⟩], []⟩ : Store).weekly
          ∨ (r.userId = 1 ∧ r.weekEnding ∈ [(⟨1, 0, "1"⟩ : WeeklyEditRow)].map (·.weekending)))
      ∧ (⟨[⟨"vsd", 7, 9, 2, none⟩, ⟨"gi", 0, 1, 1, none⟩], []⟩ : Store).daily
        = (⟨[⟨"vsd", 0, 7, 1, none⟩, ⟨"vsd", 7, 9, 2, none⟩], []⟩ : Store).daily) := by
  have h : handleSaveWeeklyEdit
      [⟨1, ⟨"GI", .personal, .number, some 1⟩⟩, ⟨2, ⟨"VSD", .personal, .number, some 1⟩⟩]
      ⟨[⟨"vsd", 0, 7, 1, none⟩, ⟨"vsd", 7, 9, 2, none⟩], []⟩ 1 [⟨1, 0, "1"⟩]
      = .ok ⟨[⟨"vsd", 7, 9, 2, none⟩, ⟨"gi", 0, 1, 1, none⟩], []⟩ := by decide
  exact ⟨h, C8_amended _ _ 1 _ _ h⟩
